import Mathlib

/-!
A shallow embedding of the rpipe server/client core, translated from the
repository sources, together with theorems settling the frozen claims.

Conventions:
* A byte is a `Nat` (its value); a byte string is `Bytes := List Nat`.
* Python `datetime` timestamps and `timedelta` seconds are modelled as `Int`
  (seconds); `datetime.now()` becomes an explicit `now : Int` argument.
* Python dictionaries become association lists (first binding wins, as in
  `MultiDict.get` / `dict.get`).
* Fallible code returns `Option` / `Except`.
-/

namespace RPipe

abbrev Bytes := List Nat

/-- `shared/util.py` `total_len`: `sum(len(i) for i in x)`. -/
def total_len (x : List Bytes) : Nat := (x.map List.length).sum

/-! ## Version (`shared/version_.py`) -/

/-- ASCII decimal digit test, used to model Python `int()` parsing. -/
def isDigitByte (c : Char) : Bool := 48 ≤ c.toNat && c.toNat ≤ 57

/-- Value of a list of decimal digit characters, most significant first. -/
def digitsVal (cs : List Char) : Nat := cs.foldl (fun a c => 10 * a + (c.toNat - 48)) 0

/-- Models Python `int(s)` on the sign-and-digits subset of its grammar
(an optional `+`/`-` sign followed by one or more ASCII digits); every other
string raises `ValueError`, modelled as `none`.  Operates on the character
list of the string. -/
def pyInt : List Char → Option Int
  | [] => none
  | '-' :: rest =>
    if rest ≠ [] && rest.all isDigitByte then some (-(digitsVal rest : Int)) else none
  | '+' :: rest =>
    if rest ≠ [] && rest.all isDigitByte then some ((digitsVal rest : Int)) else none
  | cs => if cs.all isDigitByte then some ((digitsVal cs : Int)) else none

/-- Python `str.split(sep)` for a one-character separator, on character
lists. -/
def pySplitChar (sep : Char) : List Char → List (List Char)
  | [] => [[]]
  | c :: t =>
    let r := pySplitChar sep t
    if c = sep then [] :: r
    else match r with
      | h :: t2 => (c :: h) :: t2
      | [] => [[c]]

/-- `Version`: the original string and the parsed `(major, minor, patch)` triple. -/
structure Version where
  str : String
  tuple : Int × Int × Int
deriving DecidableEq, Repr

/-- `Version._invalid = (-1, -1, -1)`. -/
def invalidTuple : Int × Int × Int := (-1, -1, -1)

/-- `Version._invalid_str`. -/
def invalidStr : String := "Unable to parse version"

/-- `Version.__init__`: split on `"."`, parse each component with `int`;
on a `ValueError` both the string and the tuple become the invalid sentinels;
on a parse that succeeds but does not yield exactly three components only the
tuple becomes invalid. -/
def Version.make (v : String) : Version :=
  match (pySplitChar '.' v.toList).mapM pyInt with
  | none => ⟨invalidStr, invalidTuple⟩
  | some [a, b, c] => ⟨v, (a, b, c)⟩
  | some _ => ⟨v, invalidTuple⟩

/-- `Version.invalid`. -/
def Version.invalid (v : Version) : Bool := v.tuple = invalidTuple

/-- Python tuple comparison (lexicographic) on the parsed triples:
`Version.__lt__`. -/
def tupLt (a b : Int × Int × Int) : Bool :=
  a.1 < b.1 || (a.1 = b.1 && (a.2.1 < b.2.1 || (a.2.1 = b.2.1 && a.2.2 < b.2.2)))

/-- `Version.__lt__`: compares the tuples. -/
def Version.lt (a b : Version) : Bool := tupLt a.tuple b.tuple

/-- `Version.__eq__`: compares the original strings. -/
def Version.beq (a b : Version) : Bool := a.str = b.str

/-- `WEB_VERSION = Version("0.0.0")`. -/
def WEB_VERSION : Version := Version.make "0.0.0"

/-- `server/constants.py` `MIN_VERSION = Version("6.3.0")`. -/
def MIN_VERSION : Version := Version.make "6.3.0"

/-! ## Size constants (`server/constants.py`, `server/server/stream.py`) -/

def MAX_SIZE_SOFT : Nat := 64 * 2 ^ 20

def MAX_SIZE_HARD : Nat := 2 * MAX_SIZE_SOFT + 0x100

/-- `stream.py` `_PIPE_MAX_BYTES = 10**9`, the per-stream capacity used by
`Stream.full`. -/
def PIPE_MAX_BYTES : Nat := 10 ^ 9

/-- `write.py` `DEFAULT_TTL`. -/
def DEFAULT_TTL : Int := 300

/-! ## Error codes (`shared/error_code.py`) -/

namespace UploadEC
def wrong_version : Nat := 412
def illegal_version : Nat := 426
def stream_id : Nat := 422
def too_big : Nat := 413
def conflict : Nat := 409
def wait : Nat := 425
def forbidden : Nat := 403
end UploadEC

namespace DownloadEC
def wrong_version : Nat := 412
def illegal_version : Nat := 426
def no_data : Nat := 410
def conflict : Nat := 409
def wait : Nat := 425
def forbidden : Nat := 403
def cannot_peek : Nat := 452
def in_use : Nat := 453
end DownloadEC

namespace QueryEC
def illegal_version : Nat := 426
def no_data : Nat := 410
end QueryEC

namespace AdminEC
def invalid : Nat := 400
def unauthorized : Nat := 401
def illegal_version : Nat := 426
end AdminEC

/-- Modelled from the spec: `DeleteEC.locked`.  `channel.py` `_delete` uses
`DeleteEC.locked`, but the `DeleteEC` class itself is missing from the
repository's `shared/error_code.py`; the spec's error-code table gives
`Delete: locked=423`. -/
def DeleteEC.locked : Nat := 423

/-! ## Request parameters (`shared/request_response.py`) -/

/-- A query-parameter dictionary; `d.get k` takes the first binding, as
`MultiDict.get` does. -/
abbrev ParamDict := List (String × String)

/-- Python dictionary access `d.get(k)`: the first binding for `k`, if any. -/
def pyLookup {α : Type} : List (String × α) → String → Option α
  | [], _ => none
  | (k, v) :: t, c => if k = c then some v else pyLookup t c

/-- Python `str(b)` on a `bool`. -/
def pyStrBool (b : Bool) : String := if b then "True" else "False"

/-- `_get_bool`: `d.get(name, str(default)) == "True"`. -/
def _get_bool (d : ParamDict) (name : String) (default : Bool) : Bool :=
  ((pyLookup d name).getD (pyStrBool default)) = "True"

/-- `_get_int_or_none`: returns the parsed integer or `None` on failure. -/
def _get_int_or_none (d : ParamDict) (name : String) : Option Int :=
  match pyLookup d name with
  | none => none
  | some got => match pyInt got.toList with
    | some n => some n
    | none => none

structure UploadRequestParams where
  version : Version
  encrypted : Bool
  final : Bool
  override : Bool
  stream_id : Option String
  ttl : Option Int
deriving DecidableEq, Repr

/-- `UploadRequestParams.from_dict`. -/
def UploadRequestParams.from_dict (d : ParamDict) : UploadRequestParams where
  version := Version.make ((pyLookup d "version").getD WEB_VERSION.str)
  encrypted := _get_bool d "encrypted" false
  final := _get_bool d "final" false
  override := _get_bool d "override" false
  stream_id := pyLookup d "stream-id"
  ttl := _get_int_or_none d "ttl"

structure DownloadRequestParams where
  version : Version
  delete : Bool
  override : Bool
  stream_id : Option String
deriving DecidableEq, Repr

/-- `DownloadRequestParams.from_dict`. -/
def DownloadRequestParams.from_dict (d : ParamDict) : DownloadRequestParams where
  version := Version.make ((pyLookup d "version").getD WEB_VERSION.str)
  delete := _get_bool d "delete" false
  override := _get_bool d "override" false
  stream_id := pyLookup d "stream-id"

/-! ## Stream (`server/server/stream.py`) -/

/-- `Stream`: the per-channel state.  The `data` deque is a list with the head
of the queue first.  `expire` is the derived field maintained by
`__setattr__`. -/
structure Stream where
  ttl : Int
  data : List Bytes
  upload_complete : Bool
  new : Bool
  locked : Bool
  encrypted : Bool
  version : Version
  id_ : String
  expire : Int
deriving DecidableEq, Repr

/-- The tail of `Stream.__setattr__`: after any successful attribute
assignment, `expire` is recomputed as `datetime.now() + timedelta(seconds=self.ttl)`. -/
def Stream.touch (now : Int) (s : Stream) : Stream := { s with expire := now + s.ttl }

/-- `Stream.__len__`. -/
def Stream.size (s : Stream) : Nat := total_len s.data

/-- `Stream.full`: `len(self) >= self._capacity` where `_capacity` is the
constant `_PIPE_MAX_BYTES`. -/
def Stream.full (s : Stream) : Bool := PIPE_MAX_BYTES ≤ s.size

/-- `Stream.expired`: true iff the stream is expired *and unlocked*. -/
def Stream.expired (now : Int) (s : Stream) : Bool := !s.locked && s.expire < now

/-- Construction of a `Stream` by the dataclass `__init__`: every field
assignment goes through `__setattr__`, so once `ttl` is set each later
assignment recomputes `expire`; the net effect is `expire = now + ttl`,
`new = True`, `locked = False`. -/
def Stream.init (data : List Bytes) (ttl : Int) (encrypted : Bool) (version : Version)
    (upload_complete : Bool) (id_ : String) (now : Int) : Stream where
  ttl := ttl
  data := data
  upload_complete := upload_complete
  new := true
  locked := false
  encrypted := encrypted
  version := version
  id_ := id_
  expire := now + ttl

/-- One attribute assignment `s.<attr> = v`, for `Stream.__setattr__`. -/
inductive AttrSet
  | ttl (v : Int)
  | data (v : List Bytes)
  | upload_complete (v : Bool)
  | new (v : Bool)
  | locked (v : Bool)
  | encrypted (v : Bool)
  | version (v : Version)
  | id_ (v : String)
  | expire (v : Int)

/-- `Stream.__setattr__`: assigning `expire` raises; assigning a key in
`_constants = ("encrypted", "version", "id_", "_constants")` raises; any other
assignment succeeds and then recomputes `expire = now + ttl` (with the new
`ttl` when `ttl` itself was assigned). -/
def Stream.setattr (now : Int) (s : Stream) : AttrSet → Except String Stream
  | .expire _ => .error "Expiration date is automatically set; do not change it manually"
  | .encrypted _ => .error "Cannot change constant values"
  | .version _ => .error "Cannot change constant values"
  | .id_ _ => .error "Cannot change constant values"
  | .ttl v => .ok (Stream.touch now { s with ttl := v })
  | .data v => .ok (Stream.touch now { s with data := v })
  | .upload_complete v => .ok (Stream.touch now { s with upload_complete := v })
  | .new v => .ok (Stream.touch now { s with new := v })
  | .locked v => .ok (Stream.touch now { s with locked := v })

/-! ## Server state (`server/server/state.py`, `shared/stats.py`)

The `streams` dict is an association list keyed by channel name; the per-channel
read/peek stat bumps (`u.stats.read(channel)` etc.) are modelled as event lists
(one entry appended per bump). -/

abbrev Streams := List (String × Stream)

def getStream (m : Streams) (c : String) : Option Stream := pyLookup m c

/-- `u.streams[channel] = s` (insert or overwrite). -/
def setStream (m : Streams) (c : String) (s : Stream) : Streams :=
  match m with
  | [] => [(c, s)]
  | (k, v) :: t => if k = c then (c, s) :: t else (k, v) :: setStream t c s

/-- `del u.streams[channel]`. -/
def delStream (m : Streams) (c : String) : Streams := m.filter (fun p => p.1 ≠ c)

structure Stats where
  reads : List String
  peeks : List String
  deletes : List String
deriving DecidableEq, Repr

structure UState where
  streams : Streams
  stats : Stats
deriving DecidableEq, Repr

def Stats.read (st : Stats) (c : String) : Stats := { st with reads := c :: st.reads }
def Stats.peek (st : Stats) (c : String) : Stats := { st with peeks := c :: st.peeks }
def Stats.delete (st : Stats) (c : String) : Stats := { st with deletes := c :: st.deletes }

/-! ## Upload handler (`server/channel/write.py`) -/

/-- `write`'s version guard:
`args.version != WEB_VERSION and (args.version < MIN_VERSION or args.version.invalid())`. -/
def illegalVersion (v : Version) : Bool :=
  !(Version.beq v WEB_VERSION) && (Version.lt v MIN_VERSION || v.invalid)

/-- `_put_error_check`; `.ok s` models the `None` return (no error), after
which `write` continues with the stream `s`. -/
def _put_error_check (s? : Option Stream) (args : UploadRequestParams) :
    Except Nat Stream :=
  match s? with
  | none => .error UploadEC.conflict
  | some s =>
    if args.stream_id ≠ some s.id_ then .error UploadEC.conflict
    else if s.upload_complete then .error UploadEC.forbidden
    else if !(Version.beq args.version s.version) && !args.override then
      .error UploadEC.wrong_version
    else if s.full then .error UploadEC.wait
    else .ok s

inductive Method
  | POST
  | PUT
deriving DecidableEq, Repr

/-- The mutation an accepted PUT performs on the stream (`write.py` lines
89-94): `s.upload_complete = args.final` (an attribute assignment, so `expire`
is recomputed); `s.data.append(add)` when the body is non-empty (an in-place
deque mutation, so `expire` is *not* recomputed by it); `s.ttl = args.ttl`
when a ttl was passed (recomputing `expire` again). -/
def putStream (s : Stream) (args : UploadRequestParams) (add : Bytes) (now : Int) : Stream :=
  let s1 := Stream.touch now { s with upload_complete := args.final }
  let s2 := if add ≠ [] then { s1 with data := s1.data ++ [add] } else s1
  match args.ttl with
  | some t => Stream.touch now { s2 with ttl := t }
  | none => s2

/-- `write`: the POST / PUT handler.  `add` is the request body, `freshId` the
random stream id drawn for a new stream, `now` the current time.  Returns the
HTTP status and the updated state (error responses leave the state unchanged;
the stats object is untouched, as in the source). -/
def write (u : UState) (channel : String) (method : Method)
    (args : UploadRequestParams) (add : Bytes) (now : Int) (freshId : String) :
    Nat × UState :=
  if illegalVersion args.version then (UploadEC.illegal_version, u)
  else if MAX_SIZE_HARD < add.length then (UploadEC.too_big, u)
  else match method with
  | .POST =>
    if args.stream_id.isSome then (UploadEC.stream_id, u)
    else
      let new := Stream.init (if add = [] then [] else [add])
        (args.ttl.getD DEFAULT_TTL) args.encrypted args.version args.final freshId now
      (201, { u with streams := setStream u.streams channel new })
  | .PUT =>
    if args.stream_id = none then (UploadEC.stream_id, u)
    else
      match _put_error_check (getStream u.streams channel) args with
      | .error ec => (ec, u)
      | .ok s =>
        (202, { u with streams := setStream u.streams channel (putStream s args add now) })

/-! ## Download handler (`server/channel/read.py`) -/

/-- `_check_if_aio`. -/
def _check_if_aio (s : Stream) (args : DownloadRequestParams) : Option Nat :=
  if !args.delete || Version.beq args.version WEB_VERSION then
    if args.stream_id.isSome then some DownloadEC.forbidden
    else if !s.new then some DownloadEC.in_use
    else if !s.upload_complete then
      if s.full then some DownloadEC.wait else some DownloadEC.cannot_peek
    else none
  else none

/-- `_read_error_check`; `.ok s` models the `None` return. -/
def _read_error_check (s? : Option Stream) (args : DownloadRequestParams) :
    Except Nat Stream :=
  match s? with
  | none => .error DownloadEC.no_data
  | some s =>
    match _check_if_aio s args with
    | some ec => .error ec
    | none =>
      if args.stream_id = none && !s.new then .error DownloadEC.in_use
      else if args.stream_id.isSome && args.stream_id ≠ some s.id_ then
        .error DownloadEC.conflict
      else if Version.beq args.version WEB_VERSION && s.encrypted then .error 422
      else if !(Version.beq args.version WEB_VERSION || Version.beq args.version s.version)
          && !args.override then .error DownloadEC.wrong_version
      else if !s.upload_complete && s.data = [] then .error DownloadEC.wait
      else .ok s

/-- The standard-read coalescing loop of `read`:
`while s.data and (len(s.data[0]) + total_len(rdata)) < MAX_SIZE_SOFT: rdata.append(s.data.popleft())`.
Returns the coalesced `rdata` and the remaining queue. -/
def coalesceLoop (rdata : List Bytes) : List Bytes → List Bytes × List Bytes
  | [] => (rdata, [])
  | h :: t =>
    if h.length + total_len rdata < MAX_SIZE_SOFT then coalesceLoop (rdata ++ [h]) t
    else (rdata, h :: t)

/-- `rdata = [s.data.popleft()] if s.data else []` followed by the coalescing
loop. -/
def readCoalesce : List Bytes → List Bytes × List Bytes
  | [] => ([], [])
  | h :: t => coalesceLoop [h] t

structure ReadResult where
  status : Nat
  data : List Bytes
  final : Bool
  state : UState
deriving DecidableEq, Repr

/-- `read`: the GET handler.  `result.data` is the list of blocks whose
concatenation forms the response body. -/
def read (u : UState) (channel : String) (args : DownloadRequestParams)
    (now : Int) : ReadResult :=
  if illegalVersion args.version then ⟨DownloadEC.illegal_version, [], false, u⟩
  else match _read_error_check (getStream u.streams channel) args with
  | .error ec => ⟨ec, [], false, u⟩
  | .ok s =>
    if !args.delete then
      -- Peek mode: no stream mutation
      ⟨200, s.data, true, { u with stats := u.stats.peek channel }⟩
    else if Version.beq args.version WEB_VERSION then
      -- Web-version consume: `s.data = deque()` (an attribute assignment),
      -- then the `args.delete and final` branch removes the channel
      let s' := Stream.touch now { s with data := [] }
      let m1 := setStream u.streams channel s'
      ⟨200, s.data, true, { streams := delStream m1 channel, stats := u.stats.read channel }⟩
    else
      -- Standard read mode
      let su : Stream × Stats :=
        if s.new then (Stream.touch now { s with new := false }, u.stats.read channel)
        else (s, u.stats)
      let rr := readCoalesce su.1.data
      let s2 : Stream := { su.1 with data := rr.2 }  -- popleft mutates in place: no touch
      let final := s2.upload_complete && rr.2.isEmpty
      let m1 := setStream u.streams channel s2
      let m2 := if final then delStream m1 channel else m1
      ⟨200, rr.1, final, { streams := m2, stats := su.2 }⟩

/-! ## DELETE handler (`server/channel/channel.py` `_delete`) -/

/-- `_delete`: 204 when absent, `DeleteEC.locked` when locked, else remove and
202. -/
def deleteChannel (u : UState) (channel : String) : Nat × UState :=
  let u1 : UState := { u with stats := u.stats.delete channel }
  match getStream u.streams channel with
  | none => (204, u1)
  | some s =>
    if s.locked then (DeleteEC.locked, u1)
    else (202, { u1 with streams := delStream u.streams channel })

/-! ## Prune pass (`server/server/prune_thread.py`) -/

/-- One pass of `PruneThread._periodic_prune` over the streams map: collect the
expired streams, then delete each. -/
def prunePass (m : Streams) (now : Int) : Streams :=
  m.filter (fun p => !(Stream.expired now p.2))

/-! ## Admin UID store (`server/admin/uid.py`, `server/admin/verify.py`) -/

/-- `UID._UID_EXPIRE`. -/
def UID_EXPIRE : Int := 300

/-- The UID store: issued UID → expiry time. -/
abbrev UIDStore := List (String × Int)

/-- `UID.new`: track each freshly issued UID with expiry `now + 300`. -/
def UID.issue (st : UIDStore) (uids : List String) (now : Int) : UIDStore :=
  (uids.map (fun i => (i, now + UID_EXPIRE))) ++ st

/-- `UID.verify`: unknown UIDs fail; known UIDs are popped (single use) and
fail when expired (`now > eol`). -/
def UID.verify (st : UIDStore) (uid : String) (now : Int) : Bool × UIDStore :=
  match pyLookup st uid with
  | none => (false, st)
  | some eol =>
    let st' := st.filter (fun p => p.1 ≠ uid)
    (!(eol < now), st')

/-- The UID-verification step of `Verify._verify` (lines 96-106): when
`self.uid.verify(msg.uid)` fails the handler replies
`Response(status=AdminEC.unauthorized)`; otherwise verification proceeds
(modelled as no error). -/
def adminUidCheck (st : UIDStore) (uid : String) (now : Int) :
    Option Nat × UIDStore :=
  let r := UID.verify st uid now
  (if r.1 then none else some AdminEC.unauthorized, r.2)

/-! ## Encryption frame (`client/client/crypt.py`)

Bytes are `Nat` values; `10` is `\n` and `32` is the space.  The zstd
compressor, scrypt KDF and AES-GCM cipher are external library calls, so they
are parameters of the embedding (`CryptoPrims`); the byte framing
(`_EncryptedData.encode` / `decode`) is translated from the source. -/

/-- Python `str(n).encode()` for a `Nat`: ASCII decimal digits. -/
def natRepr (n : Nat) : Bytes :=
  if n = 0 then [48] else (Nat.digits 10 n).reverse.map (· + 48)

/-- Python `int(k.decode())` on the digit-only strings produced by `encode`
(signs and whitespace, which `int` would also accept, cannot occur there). -/
def parseNat (bs : Bytes) : Option Nat :=
  if bs ≠ [] ∧ ∀ b ∈ bs, 48 ≤ b ∧ b ≤ 57 then
    some (Nat.ofDigits 10 (bs.map (· - 48)).reverse)
  else none

/-- Python `bytes.split(sep)` for a one-byte separator. -/
def splitByte (sep : Nat) : Bytes → List Bytes
  | [] => [[]]
  | b :: t =>
    let r := splitByte sep t
    if b = sep then [] :: r
    else match r with
      | h :: t' => (b :: h) :: t'
      | [] => [[b]]

/-- Python `raw.index(x, start)` relative to `start`: the offset of the first
occurrence of `x`, or `None` for the `ValueError`. -/
def findByte (x : Nat) : Bytes → Option Nat
  | [] => none
  | b :: t => if b = x then some 0 else (findByte x t).map (· + 1)

/-- Python slice `raw[start : start+len]` (truncating, never failing). -/
def slice (raw : Bytes) (start len : Nat) : Bytes := (raw.drop start).take len

/-- `_EncryptedData`: ciphertext, salt, nonce, tag. -/
structure EncryptedData where
  text : Bytes
  salt : Bytes
  nonce : Bytes
  tag : Bytes
deriving DecidableEq, Repr

/-- `_EncryptedData.encode`: the four ASCII decimal lengths separated by
single spaces and terminated by a newline, followed by the concatenated
fields. -/
def EncryptedData.encode (e : EncryptedData) : Bytes :=
  natRepr e.text.length ++ 32 :: natRepr e.salt.length ++ 32 :: natRepr e.nonce.length
    ++ 32 :: natRepr e.tag.length ++ 10 :: (e.text ++ e.salt ++ e.nonce ++ e.tag)

/-- The inner `for` loop of `_EncryptedData.decode`: slice one part per
length, advancing `start`; returns the parts and the final value of `end`. -/
def buildParts (raw : Bytes) : Nat → List Nat → List Bytes × Nat
  | start, [] => ([], start)
  | start, i :: rest =>
    let part := slice raw start i
    let r := buildParts raw (start + i) rest
    (part :: r.1, r.2)

/-- `int(k.decode()) for k in ...`: parse every piece of the length line;
any failure is the generator's `ValueError`. -/
def parseAll : List Bytes → Option (List Nat)
  | [] => some []
  | b :: t =>
    match parseNat b, parseAll t with
    | some n, some r => some (n :: r)
    | _, _ => none

/-- One iteration of the `decode` loop, starting at offset `end_`: find the
newline, parse the length line, slice the fields; `none` models the
`ValueError` paths.  Returns the frame and the next offset. -/
def decodeFrame (raw : Bytes) (end_ : Nat) : Option (EncryptedData × Nat) :=
  match findByte 10 (raw.drop end_) with
  | none => none
  | some i =>
    let start := end_ + i + 1
    match parseAll (splitByte 32 (slice raw end_ i)) with
    | none => none
    | some lens =>
      match buildParts raw start lens with
      | ([t, s, n, g], e) => some (⟨t, s, n, g⟩, e)
      | _ => none

/-- The `while end < len(raw)` loop of `_EncryptedData.decode`, with fuel for
termination (each iteration strictly advances `end_`, so `raw.length + 1`
steps always suffice). -/
def decodeAux (raw : Bytes) : Nat → Nat → Option (List EncryptedData)
  | 0, _ => none
  | fuel + 1, end_ =>
    if end_ < raw.length then
      match decodeFrame raw end_ with
      | none => none
      | some (ed, e) => (decodeAux raw fuel e).map (ed :: ·)
    else some []

/-- `_EncryptedData.decode`. -/
def EncryptedData.decode (raw : Bytes) : Option (List EncryptedData) :=
  decodeAux raw (raw.length + 1) 0

/-- The external primitives `encrypt`/`decrypt` call: the zstd compressor pair
and, for `_aes`, the scrypt KDF and the AES-GCM cipher.
`aesEncrypt key nonce plaintext = (ciphertext, tag)`;
`aesDecrypt key nonce ciphertext tag` is `decrypt_and_verify`, `none` on a MAC
failure. -/
structure CryptoPrims where
  compress : Bytes → Bytes
  decompress : Bytes → Bytes
  scrypt : String → Bytes → Bytes
  aesEncrypt : Bytes → Bytes → Bytes → Bytes × Bytes
  aesDecrypt : Bytes → Bytes → Bytes → Bytes → Option Bytes

/-- Python falsiness of the `password: str | None` argument. -/
def pwEmpty : Option String → Bool
  | none => true
  | some p => p = ""

/-- `encrypt`: passthrough for a falsy password or empty data; otherwise
compress, derive the key from the fresh `salt`, AES-GCM encrypt with the fresh
`nonce`, and frame.  The random salt and nonce are explicit arguments. -/
def encrypt (p : CryptoPrims) (salt nonce : Bytes) (data : Bytes)
    (password : Option String) : Bytes :=
  if pwEmpty password || data = [] then data
  else
    let c := p.compress data
    let key := p.scrypt (password.getD "") salt
    let tt := p.aesEncrypt key nonce c
    EncryptedData.encode ⟨tt.1, salt, nonce, tt.2⟩

/-- `_aes(e.salt, password, e.nonce).decrypt_and_verify(e.text, e.tag)` for
each decoded frame in order; a MAC failure raises, modelled as `none`. -/
def decryptFrames (p : CryptoPrims) (password : String) :
    List EncryptedData → Option (List Bytes)
  | [] => some []
  | e :: t =>
    match p.aesDecrypt (p.scrypt password e.salt) e.nonce e.text e.tag,
        decryptFrames p password t with
    | some r, some rs => some (r :: rs)
    | _, _ => none

/-- `decrypt`: passthrough for a falsy password or empty data; otherwise
decode the frames, `decrypt_and_verify` and decompress each, and join.
`none` models the exceptions (`ValueError` from `decode`, MAC failure). -/
def decrypt (p : CryptoPrims) (data : Bytes) (password : Option String) :
    Option Bytes :=
  if pwEmpty password || data = [] then some data
  else
    match EncryptedData.decode data with
    | none => none
    | some es =>
      match decryptFrames p (password.getD "") es with
      | none => none
      | some rs =>
        let r := rs.map p.decompress
        some (match r with
          | [x] => x
          | _ => r.flatten)

/-! ## Session-level loops

The claims about whole streams quantify over a session: one POST, a sequence
of PUTs, then successive consuming GETs by a single reader with no interleaved
replacing POST, DELETE or prune.  The loops below run the handlers above in
that pattern. -/

/-- One PUT call of a session: its query parameters and request body. -/
structure PutCall where
  args : UploadRequestParams
  body : Bytes
deriving DecidableEq, Repr

/-- Run a sequence of PUT requests on a channel; returns the list of HTTP
statuses and the final state. -/
def runPuts (c : String) (now : Int) : UState → List PutCall → List Nat × UState
  | u, [] => ([], u)
  | u, p :: ps =>
    let r := write u c .PUT p.args p.body now ""
    let rest := runPuts c now r.2 ps
    (r.1 :: rest.1, rest.2)

/-- The `final` flag of the last upload call of a session (the POST when there
is no PUT). -/
def lastFinal (postFinal : Bool) (ps : List PutCall) : Bool :=
  (ps.map (fun p => p.args.final)).getLastD postFinal

/-- The consuming reader's GET loop (`client recv`): issue GETs until a
response carries `final`, collecting the returned blocks.  Fuel bounds the
iteration; any non-200 status aborts. -/
def drainLoop (c : String) (args : DownloadRequestParams) (now : Int) :
    Nat → UState → List Bytes × UState
  | 0, u => ([], u)
  | fuel + 1, u =>
    let r := read u c args now
    if r.status = 200 then
      if r.final then (r.data, r.state)
      else
        let rest := drainLoop c args now fuel r.state
        (r.data ++ rest.1, rest.2)
    else ([], u)

/-! ## Helper lemmas: the coalescing loop -/

theorem coalesceLoop_append (rdata q : List Bytes) :
    (coalesceLoop rdata q).1 ++ (coalesceLoop rdata q).2 = rdata ++ q := by
  induction q generalizing rdata with
  | nil => simp [coalesceLoop]
  | cons h t ih =>
    simp only [coalesceLoop]
    split
    · rw [ih]; simp
    · simp

theorem readCoalesce_append (q : List Bytes) :
    (readCoalesce q).1 ++ (readCoalesce q).2 = q := by
  cases q with
  | nil => simp [readCoalesce]
  | cons h t => simpa [readCoalesce] using coalesceLoop_append [h] t

theorem coalesceLoop_prefix (rdata q : List Bytes) :
    rdata <+: (coalesceLoop rdata q).1 := by
  induction q generalizing rdata with
  | nil => simp [coalesceLoop]
  | cons h t ih =>
    simp only [coalesceLoop]
    split
    · exact List.IsPrefix.trans (List.prefix_append rdata [h]) (ih (rdata ++ [h]))
    · simp

theorem readCoalesce_ne_nil (h : Bytes) (t : List Bytes) :
    (readCoalesce (h :: t)).1 ≠ [] := by
  have := coalesceLoop_prefix [h] t
  simp only [readCoalesce]
  intro hc
  rw [hc] at this
  simpa using List.eq_nil_of_prefix_nil this

theorem coalesceLoop_total (rdata q : List Bytes) :
    (coalesceLoop rdata q).1 = rdata ∨ total_len (coalesceLoop rdata q).1 < MAX_SIZE_SOFT := by
  induction q generalizing rdata with
  | nil => left; simp [coalesceLoop]
  | cons h t ih =>
    simp only [coalesceLoop]
    split
    · next hg =>
      rcases ih (rdata ++ [h]) with heq | hlt
      · right
        rw [heq]
        simp only [total_len, List.map_append, List.sum_append, List.map_cons,
          List.map_nil, List.sum_cons, List.sum_nil] at hg ⊢
        omega
      · right; exact hlt
    · left; rfl

theorem readCoalesce_total (q : List Bytes) (h2 : 2 ≤ (readCoalesce q).1.length) :
    total_len (readCoalesce q).1 < MAX_SIZE_SOFT := by
  cases q with
  | nil => simp [readCoalesce] at h2
  | cons h t =>
    simp only [readCoalesce] at h2 ⊢
    rcases coalesceLoop_total [h] t with heq | hlt
    · rw [heq] at h2; simp at h2
    · exact hlt

theorem coalesceLoop_stop (rdata q : List Bytes) (h' : Bytes) (t' : List Bytes)
    (hr : (coalesceLoop rdata q).2 = h' :: t') :
    MAX_SIZE_SOFT ≤ h'.length + total_len (coalesceLoop rdata q).1 := by
  induction q generalizing rdata with
  | nil => simp [coalesceLoop] at hr
  | cons h t ih =>
    simp only [coalesceLoop] at hr ⊢
    split at hr
    · next hg => simpa [coalesceLoop, hg] using ih (rdata ++ [h]) hr
    · next hg =>
      have hr' : h :: t = h' :: t' := hr
      injection hr' with h1 h2
      subst h1
      rw [if_neg hg]
      simp only [not_lt] at hg
      exact hg

theorem readCoalesce_stop (q : List Bytes) (h' : Bytes) (hq : q ≠ []) (t' : List Bytes)
    (hr : (readCoalesce q).2 = h' :: t') :
    MAX_SIZE_SOFT ≤ h'.length + total_len (readCoalesce q).1 := by
  cases q with
  | nil => exact absurd rfl hq
  | cons h t =>
    simp only [readCoalesce] at hr ⊢
    exact coalesceLoop_stop [h] t h' t' hr

/-! ## Helper lemmas: the streams map -/

theorem getStream_cons (k : String) (v : Stream) (t : Streams) (c : String) :
    getStream ((k, v) :: t) c = if k = c then some v else getStream t c := rfl

theorem getStream_setStream_self (m : Streams) (c : String) (s : Stream) :
    getStream (setStream m c s) c = some s := by
  induction m with
  | nil => simp [setStream, getStream_cons]
  | cons p t ih =>
    obtain ⟨k, v⟩ := p
    by_cases hk : k = c
    · rw [setStream, if_pos hk, getStream_cons, if_pos rfl]
    · rw [setStream, if_neg hk, getStream_cons, if_neg hk]
      exact ih

theorem getStream_setStream_ne (m : Streams) (c c' : String) (s : Stream)
    (h : c' ≠ c) : getStream (setStream m c s) c' = getStream m c' := by
  induction m with
  | nil => simp [setStream, getStream_cons, getStream, pyLookup, Ne.symm h]
  | cons p t ih =>
    obtain ⟨k, v⟩ := p
    by_cases hk : k = c
    · subst hk
      rw [setStream, if_pos rfl, getStream_cons, getStream_cons]
      simp [Ne.symm h]
    · rw [setStream, if_neg hk, getStream_cons, getStream_cons]
      by_cases hkc : k = c' <;> simp [hkc, ih]

theorem getStream_delStream_self (m : Streams) (c : String) :
    getStream (delStream m c) c = none := by
  induction m with
  | nil => rfl
  | cons p t ih =>
    obtain ⟨k, v⟩ := p
    by_cases hk : k = c
    · subst hk
      simpa [delStream, List.filter_cons] using ih
    · have h2 : delStream ((k, v) :: t) c = (k, v) :: delStream t c := by
        simp [delStream, List.filter_cons, hk]
      rw [h2, getStream_cons, if_neg hk]
      exact ih

theorem getStream_delStream_ne (m : Streams) (c c' : String) (h : c' ≠ c) :
    getStream (delStream m c) c' = getStream m c' := by
  induction m with
  | nil => rfl
  | cons p t ih =>
    obtain ⟨k, v⟩ := p
    by_cases hk : k = c
    · subst hk
      have h1 : delStream ((k, v) :: t) k = delStream t k := by
        simp [delStream, List.filter_cons]
      rw [h1, ih, getStream_cons, if_neg (Ne.symm h)]
    · have h2 : delStream ((k, v) :: t) c = (k, v) :: delStream t c := by
        simp [delStream, List.filter_cons, hk]
      rw [h2, getStream_cons, getStream_cons]
      by_cases hkc : k = c' <;> simp [hkc, ih]

theorem getStream_filter (m : Streams) (c : String) (s : Stream)
    (P : String × Stream → Bool) (hs : getStream m c = some s)
    (hP : P (c, s) = true) : getStream (m.filter P) c = some s := by
  induction m with
  | nil => simp [getStream, pyLookup] at hs
  | cons p t ih =>
    obtain ⟨k, v⟩ := p
    rw [getStream_cons] at hs
    by_cases hk : k = c
    · subst hk
      rw [if_pos rfl] at hs
      injection hs with hv
      subst hv
      rw [List.filter_cons, if_pos hP, getStream_cons, if_pos rfl]
    · rw [if_neg hk] at hs
      rw [List.filter_cons]
      split
      · rw [getStream_cons, if_neg hk]
        exact ih hs
      · exact ih hs

theorem pyLookup_filter_self {α : Type} (st : List (String × α)) (uid : String) :
    pyLookup (st.filter (fun p => p.1 ≠ uid)) uid = none := by
  induction st with
  | nil => rfl
  | cons p t ih =>
    obtain ⟨k, v⟩ := p
    by_cases hk : k = uid
    · subst hk
      simpa [List.filter_cons] using ih
    · rw [List.filter_cons, if_pos (by simpa using hk), pyLookup, if_neg hk]
      exact ih

/-! ## Helper lemmas: accepted PUTs -/

/-- The net effect of `putStream` on each field. -/
theorem putStream_spec (s : Stream) (args : UploadRequestParams) (add : Bytes)
    (now : Int) :
    (putStream s args add now).data = s.data ++ (if add = [] then [] else [add])
    ∧ (putStream s args add now).upload_complete = args.final
    ∧ (putStream s args add now).id_ = s.id_
    ∧ (putStream s args add now).version = s.version
    ∧ (putStream s args add now).encrypted = s.encrypted
    ∧ (putStream s args add now).new = s.new
    ∧ (putStream s args add now).locked = s.locked
    ∧ (putStream s args add now).ttl = args.ttl.getD s.ttl
    ∧ (putStream s args add now).expire = now + args.ttl.getD s.ttl := by
  cases hadd : args.ttl <;>
    by_cases h : add = [] <;>
      simp [putStream, Stream.touch, h, hadd]

/-- A `.ok` result of `_put_error_check` is exactly the looked-up stream, and
implies every check passed. -/
theorem put_error_check_ok (s? : Option Stream) (args : UploadRequestParams)
    (s : Stream) (h : _put_error_check s? args = .ok s) :
    s? = some s ∧ args.stream_id = some s.id_ ∧ s.upload_complete = false
    ∧ (Version.beq args.version s.version || args.override) = true
    ∧ s.full = false := by
  cases s? with
  | none => simp [_put_error_check] at h
  | some s0 =>
    simp only [_put_error_check] at h
    split at h
    · simp at h
    · split at h
      · simp at h
      · split at h
        · simp at h
        · split at h
          · simp at h
          · next h1 h2 h3 h4 =>
            injection h with h0
            subst h0
            refine ⟨rfl, by simpa using h1, by simpa using h2, ?_, by simpa using h4⟩
            rcases Bool.eq_false_or_eq_true args.override with ho | ho <;> simp_all

/-- When `_put_error_check` passes and the version/size guards pass, a PUT is
accepted with 202 and replaces the stream with `putStream`. -/
theorem write_put_eq (u : UState) (c : String) (args : UploadRequestParams)
    (add : Bytes) (now : Int) (fid : String) (s : Stream)
    (hver : illegalVersion args.version = false)
    (hsize : ¬ MAX_SIZE_HARD < add.length)
    (hchk : _put_error_check (getStream u.streams c) args = .ok s) :
    write u c .PUT args add now fid =
      (202, { u with streams := setStream u.streams c (putStream s args add now) }) := by
  obtain ⟨hget, hsid, -, -, -⟩ := put_error_check_ok _ _ _ hchk
  simp only [write, hver, Bool.false_eq_true, if_false, hsize, if_false]
  rw [if_neg (by simp [hsid])]
  rw [hchk]

/-! ## Helper lemmas: consuming reads -/

/-- A `.ok` result of `_read_error_check` is exactly the looked-up stream. -/
theorem read_error_check_ok (s? : Option Stream) (args : DownloadRequestParams)
    (s : Stream) (h : _read_error_check s? args = .ok s) : s? = some s := by
  cases s? with
  | none => simp [_read_error_check] at h
  | some s0 =>
    simp only [_read_error_check] at h
    split at h
    · simp at h
    · split at h
      · simp at h
      · split at h
        · simp at h
        · split at h
          · simp at h
          · split at h
            · simp at h
            · split at h
              · simp at h
              · injection h with h0
                rw [h0]

/-- For a standard consuming GET (delete, non-web) with a matching stream id,
a compatible version and available data, `_read_error_check` passes. -/
theorem read_error_check_passes (s : Stream) (args : DownloadRequestParams)
    (hdel : args.delete = true) (hweb : Version.beq args.version WEB_VERSION = false)
    (hsid : args.stream_id = some s.id_)
    (hver : (Version.beq args.version s.version || args.override) = true)
    (hdata : s.upload_complete = true ∨ s.data ≠ []) :
    _read_error_check (some s) args = .ok s := by
  have haio : _check_if_aio s args = none := by
    simp [_check_if_aio, hdel, hweb]
  simp only [_read_error_check, haio, hsid]
  rw [if_neg (by simp), if_neg (by simp), if_neg (by simp [hweb]),
    if_neg (by simp [hweb]; intro hb; simpa [hb] using hver),
    if_neg (by rcases hdata with hc | hc <;> simp [hc])]

/-- What a standard consuming GET does once every check has passed: pop and
coalesce, report `final`, clear `new` (bumping the read stat), and drop the
channel when `final`. -/
theorem read_standard_spec (u : UState) (c : String) (args : DownloadRequestParams)
    (now : Int) (s : Stream)
    (hver : illegalVersion args.version = false)
    (hget : getStream u.streams c = some s)
    (hchk : _read_error_check (some s) args = .ok s)
    (hdel : args.delete = true)
    (hweb : Version.beq args.version WEB_VERSION = false) :
    (read u c args now).status = 200
    ∧ (read u c args now).data = (readCoalesce s.data).1
    ∧ (read u c args now).final = (s.upload_complete && (readCoalesce s.data).2.isEmpty)
    ∧ ((read u c args now).final = true →
        getStream (read u c args now).state.streams c = none)
    ∧ ((read u c args now).final = false →
        getStream (read u c args now).state.streams c =
          some { (if s.new then Stream.touch now { s with new := false } else s) with
                   data := (readCoalesce s.data).2 })
    ∧ (read u c args now).state.stats = (if s.new then u.stats.read c else u.stats)
    := by
  have hread : read u c args now =
      (let su : Stream × Stats :=
        if s.new then (Stream.touch now { s with new := false }, u.stats.read c)
        else (s, u.stats)
      let rr := readCoalesce su.1.data
      let s2 : Stream := { su.1 with data := rr.2 }
      let final := s2.upload_complete && rr.2.isEmpty
      let m1 := setStream u.streams c s2
      let m2 := if final then delStream m1 c else m1
      ⟨200, rr.1, final, { streams := m2, stats := su.2 }⟩) := by
    simp only [read, hver, Bool.false_eq_true, if_false, hget, hchk, hdel, hweb,
      Bool.not_true, Bool.false_eq_true, if_false]
  rw [hread]
  by_cases hnew : s.new
  · simp only [hnew, if_true]
    refine ⟨by trivial, by trivial, by trivial, ?_, ?_, by trivial⟩
    · intro hf
      replace hf : (s.upload_complete && (readCoalesce s.data).2.isEmpty) = true := hf
      show getStream (if s.upload_complete && (readCoalesce s.data).2.isEmpty then _ else _) c
        = none
      rw [if_pos hf]
      exact getStream_delStream_self _ _
    · intro hf
      replace hf : (s.upload_complete && (readCoalesce s.data).2.isEmpty) = false := hf
      show getStream (if s.upload_complete && (readCoalesce s.data).2.isEmpty then _ else _) c
        = _
      rw [if_neg (by simp [hf])]
      exact getStream_setStream_self _ _ _
  · simp only [hnew, Bool.false_eq_true, if_false]
    refine ⟨by trivial, by trivial, by trivial, ?_, ?_, by trivial⟩
    · intro hf
      replace hf : (s.upload_complete && (readCoalesce s.data).2.isEmpty) = true := hf
      show getStream (if s.upload_complete && (readCoalesce s.data).2.isEmpty then _ else _) c
        = none
      rw [if_pos hf]
      exact getStream_delStream_self _ _
    · intro hf
      replace hf : (s.upload_complete && (readCoalesce s.data).2.isEmpty) = false := hf
      show getStream (if s.upload_complete && (readCoalesce s.data).2.isEmpty then _ else _) c
        = _
      rw [if_neg (by simp [hf])]
      exact getStream_setStream_self _ _ _

/-! ## Shared concrete fixtures -/

/-- A valid version above `MIN_VERSION`, for concrete scenarios. -/
def exVer : Version := Version.make "9.9.9"

def emptyStats : Stats := { reads := [], peeks := [], deletes := [] }

/-! ## Claim C10 -/

theorem get_bool_false_char (d : ParamDict) (name : String) :
    _get_bool d name false = true ↔ pyLookup d name = some "True" := by
  cases h : pyLookup d name <;> simp [_get_bool, pyStrBool, h]

/-- C10: each boolean query parameter (`encrypted`, `final`, `override`,
`delete`) parses as true iff its wire value is exactly the string `"True"`
(so `"true"`, `"1"`, etc. parse as false), and an absent parameter takes its
default, which is false for all four. -/
theorem C10_bool_query_params (d : ParamDict) :
    ((UploadRequestParams.from_dict d).encrypted = true ↔ pyLookup d "encrypted" = some "True")
    ∧ ((UploadRequestParams.from_dict d).final = true ↔ pyLookup d "final" = some "True")
    ∧ ((UploadRequestParams.from_dict d).override = true ↔ pyLookup d "override" = some "True")
    ∧ ((DownloadRequestParams.from_dict d).delete = true ↔ pyLookup d "delete" = some "True")
    ∧ ((DownloadRequestParams.from_dict d).override = true ↔ pyLookup d "override" = some "True")
    ∧ (pyLookup d "encrypted" = none → (UploadRequestParams.from_dict d).encrypted = false)
    ∧ (pyLookup d "final" = none → (UploadRequestParams.from_dict d).final = false)
    ∧ (pyLookup d "override" = none → (UploadRequestParams.from_dict d).override = false)
    ∧ (pyLookup d "delete" = none → (DownloadRequestParams.from_dict d).delete = false) := by
  refine ⟨get_bool_false_char d "encrypted", get_bool_false_char d "final",
    get_bool_false_char d "override", get_bool_false_char d "delete",
    get_bool_false_char d "override", ?_, ?_, ?_, ?_⟩ <;>
    · intro h
      simp [UploadRequestParams.from_dict, DownloadRequestParams.from_dict,
        _get_bool, pyStrBool, h]

/-! ## Claim C6 -/

/-- C6 (amended): an admin POST whose UID was never issued, was already
consumed (verification pops it), or has expired is rejected by the UID check
with status `AdminEC.unauthorized`, which in this code base is 401 (not the
claimed 403). -/
theorem C6_admin_uid_unauthorized (st : UIDStore) (uid : String) (now eol : Int) :
    (pyLookup st uid = none → (adminUidCheck st uid now).1 = some AdminEC.unauthorized)
    ∧ (pyLookup st uid = some eol → eol < now →
        (adminUidCheck st uid now).1 = some AdminEC.unauthorized)
    ∧ ((adminUidCheck st uid now).1 = none →
        (adminUidCheck (adminUidCheck st uid now).2 uid now).1 = some AdminEC.unauthorized)
    ∧ AdminEC.unauthorized = 401 := by
  refine ⟨?_, ?_, ?_, rfl⟩
  · intro h
    simp [adminUidCheck, UID.verify, h]
  · intro h hlt
    simp [adminUidCheck, UID.verify, h, hlt]
  · intro h
    cases hl : pyLookup st uid with
    | none => simp [adminUidCheck, UID.verify, hl] at h
    | some eol0 =>
      by_cases hlt : eol0 < now
      · simp [adminUidCheck, UID.verify, hl, hlt] at h
      · have h2 : (adminUidCheck st uid now).2 = st.filter (fun p => p.1 ≠ uid) := by
          simp [adminUidCheck, UID.verify, hl]
        rw [h2]
        have h3 : pyLookup (List.filter (fun p => !decide (p.1 = uid)) st) uid = none := by
          simpa using pyLookup_filter_self st uid
        simp [adminUidCheck, UID.verify, h3]

/-- C6 counterexample: at a concrete never-issued UID the check responds 401,
not the claimed 403. -/
theorem C6_counterexample :
    (adminUidCheck [] "u" (0 : Int)).1 = some 401 ∧ (401 : Nat) ≠ 403 := by
  exact ⟨rfl, by decide⟩

theorem C6_witness :
    (adminUidCheck [] "u" (0 : Int)).1 = some AdminEC.unauthorized
    ∧ (adminUidCheck [("u", (10 : Int))] "u" 20).1 = some AdminEC.unauthorized
    ∧ (adminUidCheck (adminUidCheck [("u", (10 : Int))] "u" 5).2 "u" 5).1
        = some AdminEC.unauthorized := by
  refine ⟨(C6_admin_uid_unauthorized [] "u" 0 0).1 rfl,
    (C6_admin_uid_unauthorized [("u", 10)] "u" 20 10).2.1 rfl (by norm_num),
    (C6_admin_uid_unauthorized [("u", 10)] "u" 5 10).2.2.1 (by decide)⟩

/-! ## Claim C7 -/

/-- `_delete` on a present locked stream: status 423, streams untouched. -/
theorem deleteChannel_locked (u : UState) (c : String) (s : Stream)
    (hs : getStream u.streams c = some s) (hl : s.locked = true) :
    (deleteChannel u c).1 = DeleteEC.locked ∧ (deleteChannel u c).2.streams = u.streams := by
  simp only [deleteChannel, hs, hl, if_true]
  exact ⟨by trivial, by trivial⟩

/-- `_delete` on a present unlocked stream: status 202, channel removed. -/
theorem deleteChannel_unlocked (u : UState) (c : String) (s : Stream)
    (hs : getStream u.streams c = some s) (hl : s.locked = false) :
    (deleteChannel u c).1 = 202 ∧ getStream (deleteChannel u c).2.streams c = none := by
  simp only [deleteChannel, hs, hl, Bool.false_eq_true, if_false]
  exact ⟨by trivial, getStream_delStream_self _ _⟩

/-- C7: while a stream is locked, a prune pass keeps it and DELETE answers
the (spec-modelled) 423 without touching the streams map; once an admin
unlock (`s.locked = False`, an attribute assignment) has replaced it, DELETE
removes the channel with 202. -/
theorem C7_locked_survives (u : UState) (c : String) (s : Stream) (now now2 : Int)
    (hs : getStream u.streams c = some s) (hl : s.locked = true) :
    getStream (prunePass u.streams now) c = some s
    ∧ (deleteChannel u c).1 = DeleteEC.locked
    ∧ (deleteChannel u c).2.streams = u.streams
    ∧ (∀ s', Stream.setattr now2 s (.locked false) = .ok s' →
        (deleteChannel { u with streams := setStream u.streams c s' } c).1 = 202
        ∧ getStream (deleteChannel { u with streams := setStream u.streams c s' } c).2.streams c
            = none) := by
  refine ⟨?_, (deleteChannel_locked u c s hs hl).1, (deleteChannel_locked u c s hs hl).2, ?_⟩
  · exact getStream_filter u.streams c s _ hs (by simp [Stream.expired, hl])
  · intro s' h
    injection h with h0
    subst h0
    exact deleteChannel_unlocked _ c _ (getStream_setStream_self _ _ _) rfl

def exS7 : Stream :=
  { ttl := 300, data := [[1]], upload_complete := true, new := true, locked := true,
    encrypted := false, version := exVer, id_ := "id7", expire := 1000 }

def exU7 : UState := { streams := [("c", exS7)], stats := emptyStats }

theorem C7_witness :
    getStream (prunePass exU7.streams 99999) "c" = some exS7
    ∧ (deleteChannel exU7 "c").1 = DeleteEC.locked
    ∧ (deleteChannel
        { exU7 with streams := setStream exU7.streams "c" (Stream.touch 0 { exS7 with locked := false }) }
        "c").1 = 202 := by
  obtain ⟨h1, h2, h3, h4⟩ := C7_locked_survives exU7 "c" exS7 99999 0 rfl rfl
  exact ⟨h1, h2, (h4 _ rfl).1⟩

/-! ## Claim C8 -/

/-- C8: `id_`, `version` and `encrypted` never change after creation: every
successful `__setattr__` leaves them intact; assigning any of the three raises
`AttributeError` (modelled as `.error`, producing no modified stream); and the
stream-mutating handler paths — an accepted PUT and a standard consuming GET —
preserve them. -/
theorem C8_constants_immutable (s : Stream) (now : Int) (bv : Bool) (vv : Version)
    (iv : String) (u : UState) (c : String) (args : UploadRequestParams)
    (dargs : DownloadRequestParams) (add : Bytes) (fid : String) :
    (∀ a s', Stream.setattr now s a = .ok s' →
        s'.id_ = s.id_ ∧ s'.version = s.version ∧ s'.encrypted = s.encrypted)
    ∧ Stream.setattr now s (.encrypted bv) = .error "Cannot change constant values"
    ∧ Stream.setattr now s (.version vv) = .error "Cannot change constant values"
    ∧ Stream.setattr now s (.id_ iv) = .error "Cannot change constant values"
    ∧ (illegalVersion args.version = false → ¬ MAX_SIZE_HARD < add.length →
        _put_error_check (getStream u.streams c) args = .ok s →
        getStream (write u c .PUT args add now fid).2.streams c
            = some (putStream s args add now)
        ∧ (putStream s args add now).id_ = s.id_
        ∧ (putStream s args add now).version = s.version
        ∧ (putStream s args add now).encrypted = s.encrypted)
    ∧ (illegalVersion dargs.version = false → getStream u.streams c = some s →
        _read_error_check (some s) dargs = .ok s → dargs.delete = true →
        Version.beq dargs.version WEB_VERSION = false →
        ∀ s'', getStream (read u c dargs now).state.streams c = some s'' →
          s''.id_ = s.id_ ∧ s''.version = s.version ∧ s''.encrypted = s.encrypted) := by
  refine ⟨?_, rfl, rfl, rfl, ?_, ?_⟩
  · intro a s' h
    cases a with
    | ttl v => injection h with h0; subst h0; exact ⟨rfl, rfl, rfl⟩
    | data v => injection h with h0; subst h0; exact ⟨rfl, rfl, rfl⟩
    | upload_complete v => injection h with h0; subst h0; exact ⟨rfl, rfl, rfl⟩
    | new v => injection h with h0; subst h0; exact ⟨rfl, rfl, rfl⟩
    | locked v => injection h with h0; subst h0; exact ⟨rfl, rfl, rfl⟩
    | encrypted v => exact Except.noConfusion h
    | version v => exact Except.noConfusion h
    | id_ v => exact Except.noConfusion h
    | expire v => exact Except.noConfusion h
  · intro h1 h2 h3
    obtain ⟨hd, hu, hid, hv, he, -⟩ := putStream_spec s args add now
    rw [write_put_eq u c args add now fid s h1 h2 h3]
    exact ⟨getStream_setStream_self _ _ _, hid, hv, he⟩
  · intro h1 h2 h3 h4 h5 s'' h6
    obtain ⟨-, -, -, hfin_t, hfin_f, -⟩ := read_standard_spec u c dargs now s h1 h2 h3 h4 h5
    cases hf : (read u c dargs now).final with
    | true => rw [hfin_t hf] at h6; exact Option.noConfusion h6
    | false =>
      rw [hfin_f hf] at h6
      injection h6 with h0
      subst h0
      cases hn : s.new <;> simp [hn, Stream.touch]

def exS8 : Stream :=
  { ttl := 300, data := [[1]], upload_complete := false, new := true, locked := false,
    encrypted := false, version := exVer, id_ := "id8", expire := 600 }

def exU8 : UState := { streams := [("c", exS8)], stats := emptyStats }

def exPutArgs : UploadRequestParams :=
  { version := exVer, encrypted := false, final := false, override := false,
    stream_id := some "id8", ttl := none }

def exGetArgs : DownloadRequestParams :=
  { version := exVer, delete := true, override := false, stream_id := some "id8" }

theorem C8_witness :
    getStream (write exU8 "c" .PUT exPutArgs [2] 50 "x").2.streams "c"
        = some (putStream exS8 exPutArgs [2] 50)
    ∧ (putStream exS8 exPutArgs [2] 50).id_ = exS8.id_
    ∧ ((getStream (read exU8 "c" exGetArgs 50).state.streams "c" = some
          { Stream.touch 50 { exS8 with new := false } with data := [] }) →
        ({ Stream.touch 50 { exS8 with new := false } with data := ([] : List Bytes) }).id_
          = exS8.id_) := by
  obtain ⟨-, -, -, -, hput, hread⟩ :=
    C8_constants_immutable exS8 50 true exVer "z" exU8 "c" exPutArgs exGetArgs [2] "x"
  obtain ⟨hp1, hp2, -, -⟩ := hput (by decide) (by decide) rfl
  refine ⟨hp1, hp2, fun h6 => ?_⟩
  exact (hread (by decide) rfl rfl rfl (by decide) _ h6).1

/-! ## Claim C9 -/

/-- C9 (amended): `expire` equals the time of the last successful *attribute
assignment* plus `ttl`: every `__setattr__` recomputes it — hence every
accepted PUT refreshes expiry (it always assigns `upload_complete`), and the
first consuming GET refreshes it through the `new = False` assignment — but
in-place deque mutations do not: a consuming GET on an already-started stream
(`new = False`) pops blocks leaving every other field, `expire` included,
unchanged.  While locked, a stream is never considered expired. -/
theorem C9_expire_derived (s : Stream) (now : Int) (u : UState) (c : String)
    (args : UploadRequestParams) (dargs : DownloadRequestParams) (add : Bytes) :
    (∀ a s', Stream.setattr now s a = .ok s' → s'.expire = now + s'.ttl)
    ∧ ((putStream s args add now).expire = now + (putStream s args add now).ttl)
    ∧ (illegalVersion dargs.version = false → getStream u.streams c = some s →
        _read_error_check (some s) dargs = .ok s → dargs.delete = true →
        Version.beq dargs.version WEB_VERSION = false →
        (read u c dargs now).final = false →
        getStream (read u c dargs now).state.streams c =
          some (if s.new then
              { Stream.touch now { s with new := false } with data := (readCoalesce s.data).2 }
            else { s with data := (readCoalesce s.data).2 })
        ∧ (({ s with data := (readCoalesce s.data).2 } : Stream).expire = s.expire)
        ∧ (({ Stream.touch now { s with new := false } with
              data := (readCoalesce s.data).2 } : Stream).expire = now + s.ttl))
    ∧ (s.locked = true → Stream.expired now s = false) := by
  refine ⟨?_, ?_, ?_, ?_⟩
  · intro a s' h
    cases a with
    | ttl v => injection h with h0; subst h0; rfl
    | data v => injection h with h0; subst h0; rfl
    | upload_complete v => injection h with h0; subst h0; rfl
    | new v => injection h with h0; subst h0; rfl
    | locked v => injection h with h0; subst h0; rfl
    | encrypted v => exact Except.noConfusion h
    | version v => exact Except.noConfusion h
    | id_ v => exact Except.noConfusion h
    | expire v => exact Except.noConfusion h
  · obtain ⟨-, -, -, -, -, -, -, httl, hexp⟩ := putStream_spec s args add now
    rw [httl, hexp]
  · intro h1 h2 h3 h4 h5 hf
    obtain ⟨-, -, -, -, hfin_f, -⟩ := read_standard_spec u c dargs now s h1 h2 h3 h4 h5
    refine ⟨?_, rfl, rfl⟩
    rw [hfin_f hf]
    cases hn : s.new <;> simp [hn]
  · intro h
    simp [Stream.expired, h]

def exS9 : Stream :=
  { ttl := 300, data := [[7]], upload_complete := false, new := false, locked := false,
    encrypted := false, version := exVer, id_ := "id9", expire := 1000 }

def exU9 : UState := { streams := [("c", exS9)], stats := emptyStats }

def exGet9 : DownloadRequestParams :=
  { version := exVer, delete := true, override := false, stream_id := some "id9" }

/-- C9 counterexample: a consuming GET on an already-started stream pops the
queue without recomputing `expire`: at `now = 5000` the queue empties but the
stored stream keeps `expire = 1000 ≠ 5000 + ttl`, refuting "recomputed ... on
every mutation of ... the data queue (including ... pops by consuming
GETs)". -/
theorem C9_counterexample :
    getStream (read exU9 "c" exGet9 5000).state.streams "c" = some { exS9 with data := [] }
    ∧ exS9.expire = 1000
    ∧ ({ exS9 with data := ([] : List Bytes) } : Stream).expire ≠ 5000 + exS9.ttl := by
  exact ⟨rfl, rfl, by decide⟩

theorem C9_witness :
    (putStream exS9 exPutArgs [2] 50).expire = 50 + (putStream exS9 exPutArgs [2] 50).ttl
    ∧ Stream.expired 99999 { exS9 with locked := true } = false
    ∧ getStream (read exU9 "c" exGet9 5000).state.streams "c" =
        some { exS9 with data := (readCoalesce exS9.data).2 } := by
  obtain ⟨-, hput, hread, -⟩ := C9_expire_derived exS9 5000 exU9 "c" exPutArgs exGet9 [2]
  obtain ⟨-, -, -, hlock⟩ :=
    C9_expire_derived { exS9 with locked := true } 99999 exU9 "c" exPutArgs exGet9 [2]
  refine ⟨?_, hlock rfl, ?_⟩
  · exact (C9_expire_derived exS9 50 exU9 "c" exPutArgs exGet9 [2]).2.1
  · exact (hread (by decide) rfl rfl rfl (by decide) rfl).1

/-! ## Claim C5 -/

/-- Whether every dot-separated component of `v` parses with `int`, i.e.
`Version.__init__` does not take its `ValueError` path. -/
def Version.parseOK (v : String) : Bool :=
  ((pySplitChar '.' v.toList).mapM pyInt).isSome

/-- When parsing does not raise, the original string is preserved. -/
theorem Version.make_str (v : String) (h : Version.parseOK v = true) :
    (Version.make v).str = v := by
  unfold Version.make
  cases hm : (pySplitChar '.' v.toList).mapM pyInt with
  | none =>
    unfold Version.parseOK at h
    rw [hm] at h
    simp at h
  | some l =>
    rcases l with _ | ⟨a, _ | ⟨b, _ | ⟨c, _ | ⟨d, l⟩⟩⟩⟩ <;> rfl

theorem tupLt_trans {a b c : Int × Int × Int} (h1 : tupLt a b = true)
    (h2 : tupLt b c = true) : tupLt a c = true := by
  obtain ⟨a1, a2, a3⟩ := a
  obtain ⟨b1, b2, b3⟩ := b
  obtain ⟨c1, c2, c3⟩ := c
  simp only [tupLt, Bool.or_eq_true, Bool.and_eq_true, decide_eq_true_eq] at h1 h2 ⊢
  omega

theorem tupLt_trichotomy (a b : Int × Int × Int) :
    tupLt a b = true ∨ tupLt b a = true ∨ a = b := by
  obtain ⟨a1, a2, a3⟩ := a
  obtain ⟨b1, b2, b3⟩ := b
  simp only [tupLt, Bool.or_eq_true, Bool.and_eq_true, decide_eq_true_eq,
    Prod.mk.injEq]
  omega

/-- C5 counterexample: at concrete inputs the claim fails three ways —
`"1.2.3"` and `"01.2.3"` are valid, unequal (string equality) and mutually
incomparable, so comparison is not a total order on valid versions; the
"valid" version `"-2.0.0"` compares *below* the invalid `Version("x")`; and
`Version("x") == Version("y")` holds although the original strings differ
(both collapse to the sentinel string). -/
theorem C5_counterexample :
    (Version.make "1.2.3").invalid = false
    ∧ (Version.make "01.2.3").invalid = false
    ∧ Version.lt (Version.make "1.2.3") (Version.make "01.2.3") = false
    ∧ Version.lt (Version.make "01.2.3") (Version.make "1.2.3") = false
    ∧ Version.beq (Version.make "1.2.3") (Version.make "01.2.3") = false
    ∧ (Version.make "-2.0.0").invalid = false
    ∧ (Version.make "x").invalid = true
    ∧ Version.lt (Version.make "-2.0.0") (Version.make "x") = true
    ∧ Version.beq (Version.make "x") (Version.make "y") = true
    ∧ "x" ≠ "y" := by decide

/-- C5 (amended): `lt` is irreflexive, transitive, and trichotomous up to
equality of the parsed triples (not up to `Version` equality, which compares
strings); an invalid version is below every valid version whose major
component is nonnegative; and two `Version` values built from strings whose
components all parse are equal iff the strings are equal. -/
theorem C5_version_order (a b c w x : Version) (s t : String)
    (hw : w.invalid = false) (hwn : 0 ≤ w.tuple.1) (hx : x.invalid = true)
    (hs : Version.parseOK s = true) (ht : Version.parseOK t = true) :
    Version.lt a a = false
    ∧ (Version.lt a b = true → Version.lt b c = true → Version.lt a c = true)
    ∧ (Version.lt a b = true ∨ Version.lt b a = true ∨ a.tuple = b.tuple)
    ∧ Version.lt x w = true
    ∧ (Version.beq (Version.make s) (Version.make t) = true ↔ s = t) := by
  refine ⟨?_, ?_, ?_, ?_, ?_⟩
  · simp [Version.lt, tupLt]
  · exact fun h1 h2 => tupLt_trans h1 h2
  · exact tupLt_trichotomy a.tuple b.tuple
  · have hx2 : x.tuple = invalidTuple := by
      simpa [Version.invalid] using hx
    simp only [Version.lt, hx2, invalidTuple, tupLt, Bool.or_eq_true,
      Bool.and_eq_true, decide_eq_true_eq]
    omega
  · simp [Version.beq, Version.make_str s hs, Version.make_str t ht]

theorem C5_witness :
    Version.lt (Version.make "1.0.0") (Version.make "1.0.0") = false
    ∧ (Version.lt (Version.make "1.0.0") (Version.make "2.0.0") = true →
        Version.lt (Version.make "2.0.0") (Version.make "3.0.0") = true →
        Version.lt (Version.make "1.0.0") (Version.make "3.0.0") = true)
    ∧ (Version.lt (Version.make "1.0.0") (Version.make "2.0.0") = true
        ∨ Version.lt (Version.make "2.0.0") (Version.make "1.0.0") = true
        ∨ (Version.make "1.0.0").tuple = (Version.make "2.0.0").tuple)
    ∧ Version.lt (Version.make "bad") (Version.make "1.2.3") = true
    ∧ (Version.beq (Version.make "1.2.3") (Version.make "4.5.6") = true ↔
        "1.2.3" = "4.5.6") :=
  C5_version_order (Version.make "1.0.0") (Version.make "2.0.0") (Version.make "3.0.0")
    (Version.make "1.2.3") (Version.make "bad") "1.2.3" "4.5.6"
    (by decide) (by decide) (by decide) (by decide) (by decide)

/-! ## Claim C2 -/

/-- Past the guards, the PUT status is the error-check result (202 on pass). -/
theorem write_put_status (u : UState) (c : String) (args : UploadRequestParams)
    (add : Bytes) (now : Int) (fid : String)
    (hver : illegalVersion args.version = false)
    (hsize : ¬ MAX_SIZE_HARD < add.length) (hsid : args.stream_id ≠ none) :
    (write u c .PUT args add now fid).1 =
      match _put_error_check (getStream u.streams c) args with
      | .error ec => ec
      | .ok _ => 202 := by
  simp only [write, hver, Bool.false_eq_true, if_false]
  rw [if_neg hsize, if_neg hsid]
  cases _put_error_check (getStream u.streams c) args <;> rfl

/-- C2 (amended): for every PUT that passes the version and size guards and
carries a stream-id, the checks apply in this order with these statuses:
absent stream or mismatched stream-id → 409; `upload_complete` already true →
403 (`UploadEC.forbidden`; the claimed 406 appears nowhere); request version
different from the stream's with `override=false` → 412; stream already full
(`len(stream) ≥ capacity`; the request body plays no part, unlike the claimed
`len(stream)+len(body) > capacity` with non-empty body) → 425; otherwise the
PUT is accepted with 202.  There is no locked check: a locked stream accepts
PUTs. -/
theorem C2_put_error_order (u : UState) (c : String) (s : Stream)
    (args : UploadRequestParams) (add : Bytes) (now : Int) (fid : String)
    (hver : illegalVersion args.version = false)
    (hsize : ¬ MAX_SIZE_HARD < add.length) (hsid : args.stream_id ≠ none) :
    (getStream u.streams c = none →
        (write u c .PUT args add now fid).1 = UploadEC.conflict)
    ∧ (getStream u.streams c = some s → args.stream_id ≠ some s.id_ →
        (write u c .PUT args add now fid).1 = UploadEC.conflict)
    ∧ (getStream u.streams c = some s → args.stream_id = some s.id_ →
        s.upload_complete = true →
        (write u c .PUT args add now fid).1 = UploadEC.forbidden
        ∧ UploadEC.forbidden = 403)
    ∧ (getStream u.streams c = some s → args.stream_id = some s.id_ →
        s.upload_complete = false → Version.beq args.version s.version = false →
        args.override = false →
        (write u c .PUT args add now fid).1 = UploadEC.wrong_version)
    ∧ (getStream u.streams c = some s → args.stream_id = some s.id_ →
        s.upload_complete = false →
        (Version.beq args.version s.version || args.override) = true →
        s.full = true →
        (write u c .PUT args add now fid).1 = UploadEC.wait)
    ∧ (getStream u.streams c = some s → args.stream_id = some s.id_ →
        s.upload_complete = false →
        (Version.beq args.version s.version || args.override) = true →
        s.full = false →
        (write u c .PUT args add now fid).1 = 202) := by
  have hst := write_put_status u c args add now fid hver hsize hsid
  refine ⟨?_, ?_, ?_, ?_, ?_, ?_⟩
  · intro hg
    rw [hst, hg]
    rfl
  · intro hg hid
    rw [hst, hg]
    simp only [_put_error_check]
    rw [if_pos hid]
  · intro hg hid hc
    rw [hst, hg]
    simp only [_put_error_check]
    rw [if_neg (by simp [hid]), if_pos hc]
    exact ⟨rfl, rfl⟩
  · intro hg hid hc hb ho
    rw [hst, hg]
    simp only [_put_error_check]
    rw [if_neg (by simp [hid]), if_neg (by simp [hc]), if_pos (by simp [hb, ho])]
  · intro hg hid hc hvo hful
    rw [hst, hg]
    simp only [_put_error_check]
    rw [if_neg (by simp [hid]), if_neg (by simp [hc]),
      if_neg (by rcases Bool.or_eq_true_iff.mp hvo with h | h <;> simp [h]),
      if_pos hful]
  · intro hg hid hc hvo hful
    rw [hst, hg]
    simp only [_put_error_check]
    rw [if_neg (by simp [hid]), if_neg (by simp [hc]),
      if_neg (by rcases Bool.or_eq_true_iff.mp hvo with h | h <;> simp [h]),
      if_neg (by simp [hful])]

def exS2done : Stream :=
  { ttl := 300, data := [], upload_complete := true, new := true, locked := false,
    encrypted := false, version := exVer, id_ := "id2", expire := 0 }

def exS2locked : Stream :=
  { ttl := 300, data := [], upload_complete := false, new := true, locked := true,
    encrypted := false, version := exVer, id_ := "id2", expire := 0 }

def exS2full : Stream :=
  { ttl := 300, data := [List.replicate PIPE_MAX_BYTES 0], upload_complete := false,
    new := true, locked := false, encrypted := false, version := exVer, id_ := "id2",
    expire := 0 }

def exArgs2 : UploadRequestParams :=
  { version := exVer, encrypted := false, final := false, override := false,
    stream_id := some "id2", ttl := none }

/-- C2 counterexample: a PUT to a completed stream is answered 403, not the
claimed 406; a locked stream passes every check (the claimed 423 step does not
exist); and the wait check fires from `len(stream) ≥ capacity` alone — here
with an empty body, where the claimed `len(stream)+len(body) > capacity` is
false. -/
theorem C2_counterexample :
    _put_error_check (some exS2done) exArgs2 = .error 403 ∧ (403 : Nat) ≠ 406
    ∧ _put_error_check (some exS2locked) exArgs2 = .ok exS2locked
    ∧ exS2locked.locked = true
    ∧ _put_error_check (some exS2full) exArgs2 = .error UploadEC.wait
    ∧ exS2full.size + ([] : Bytes).length ≤ PIPE_MAX_BYTES := by
  have hsz : exS2full.size = PIPE_MAX_BYTES := by
    show total_len [List.replicate PIPE_MAX_BYTES 0] = PIPE_MAX_BYTES
    simp only [total_len, List.map_cons, List.map_nil, List.length_replicate,
      List.sum_cons, List.sum_nil, Nat.add_zero]
  have hfull : exS2full.full = true := by
    show (decide (PIPE_MAX_BYTES ≤ exS2full.size)) = true
    rw [hsz]
    simp
  refine ⟨rfl, by decide, rfl, rfl, ?_, ?_⟩
  · simp only [_put_error_check]
    rw [if_neg (by decide), if_neg (by decide), if_neg (by decide), if_pos hfull]
  · rw [hsz]
    simp

theorem C2_witness :
    (write { streams := [("c", exS2done)], stats := emptyStats } "c" .PUT exArgs2 [] 0 "x").1
        = UploadEC.forbidden
    ∧ (write { streams := [("c", exS2locked)], stats := emptyStats } "c" .PUT exArgs2 [] 0 "x").1
        = 202
    ∧ (write { streams := [], stats := emptyStats } "c" .PUT exArgs2 [] 0 "x").1
        = UploadEC.conflict := by
  refine ⟨?_, ?_, ?_⟩
  · exact ((C2_put_error_order { streams := [("c", exS2done)], stats := emptyStats } "c"
      exS2done exArgs2 [] 0 "x" (by decide) (by decide) (by decide)).2.2.1 rfl rfl rfl).1
  · exact (C2_put_error_order { streams := [("c", exS2locked)], stats := emptyStats } "c"
      exS2locked exArgs2 [] 0 "x" (by decide) (by decide) (by decide)).2.2.2.2.2 rfl rfl rfl
      (by decide) (by decide)
  · exact (C2_put_error_order { streams := [], stats := emptyStats } "c"
      exS2done exArgs2 [] 0 "x" (by decide) (by decide) (by decide)).1 rfl

/-! ## Claim C3 -/

/-- C3 (amended): for every standard consuming GET (delete=true, non-web)
that passes all error checks: the server pops the head block and greedily
coalesces further head blocks while the running total stays strictly below
the soft size limit (the loop guard is `< MAX_SIZE_SOFT`, not `≤`); the
delivered blocks are a non-empty initial segment of the queue whenever the
queue is non-empty; the final header is true iff `upload_complete` is set and
the queue became empty; if the stream was new, `new` is cleared and the read
stat is bumped; and after a consuming GET whose response carries final=true
the channel is absent from the streams map. -/
theorem C3_standard_consume (u : UState) (c : String) (args : DownloadRequestParams)
    (now : Int) (s : Stream)
    (hver : illegalVersion args.version = false)
    (hget : getStream u.streams c = some s)
    (hchk : _read_error_check (some s) args = .ok s)
    (hdel : args.delete = true)
    (hweb : Version.beq args.version WEB_VERSION = false) :
    (read u c args now).status = 200
    ∧ (read u c args now).data ++ (readCoalesce s.data).2 = s.data
    ∧ (s.data ≠ [] → (read u c args now).data ≠ [])
    ∧ (2 ≤ (read u c args now).data.length →
        total_len (read u c args now).data < MAX_SIZE_SOFT)
    ∧ (∀ h' t', (readCoalesce s.data).2 = h' :: t' →
        MAX_SIZE_SOFT ≤ h'.length + total_len (read u c args now).data)
    ∧ ((read u c args now).final = (s.upload_complete && (readCoalesce s.data).2.isEmpty))
    ∧ (s.new = true → (read u c args now).state.stats = u.stats.read c)
    ∧ (s.new = false → (read u c args now).state.stats = u.stats)
    ∧ ((read u c args now).final = false →
        getStream (read u c args now).state.streams c =
          some { (if s.new then Stream.touch now { s with new := false } else s) with
                   data := (readCoalesce s.data).2 })
    ∧ ((read u c args now).final = true →
        getStream (read u c args now).state.streams c = none) := by
  obtain ⟨h1, h2, h3, h4, h5, h6⟩ := read_standard_spec u c args now s hver hget hchk hdel hweb
  refine ⟨h1, ?_, ?_, ?_, ?_, h3, ?_, ?_, h5, h4⟩
  · rw [h2]
    exact readCoalesce_append s.data
  · intro hne
    rw [h2]
    cases hq : s.data with
    | nil => exact absurd hq hne
    | cons hh tt => exact readCoalesce_ne_nil hh tt
  · intro hlen
    rw [h2] at hlen ⊢
    exact readCoalesce_total s.data hlen
  · intro h' t'
    rw [h2]
    cases s.data with
    | nil =>
      intro hr
      simp [readCoalesce] at hr
    | cons hh tt =>
      intro hr
      exact readCoalesce_stop (hh :: tt) h' (by simp) t' hr
  · intro hn
    rw [h6, if_pos hn]
  · intro hn
    rw [h6, if_neg (by simp [hn])]

def exBlockA : Bytes := List.replicate (MAX_SIZE_SOFT - 1) 0

def exS3 : Stream :=
  { ttl := 300, data := [exBlockA, [0]], upload_complete := true, new := true,
    locked := false, encrypted := false, version := exVer, id_ := "id3", expire := 0 }

def exU3 : UState := { streams := [("c", exS3)], stats := emptyStats }

def exGet3 : DownloadRequestParams :=
  { version := exVer, delete := true, override := false, stream_id := some "id3" }

/-- The coalescing loop as the claim words it: append further head blocks
while the total stays ≤ the soft size limit.  Used only to compare the
claim's wording with the code's `<` guard. -/
def coalesceLoopLe (rdata : List Bytes) : List Bytes → List Bytes × List Bytes
  | [] => (rdata, [])
  | h :: t =>
    if h.length + total_len rdata ≤ MAX_SIZE_SOFT then coalesceLoopLe (rdata ++ [h]) t
    else (rdata, h :: t)

/-- The claim's pop-then-coalesce with the `≤` guard. -/
def readCoalesceLe : List Bytes → List Bytes × List Bytes
  | [] => ([], [])
  | h :: t => coalesceLoopLe [h] t

/-- C3 counterexample: with two queued blocks whose total is exactly
`MAX_SIZE_SOFT`, the claim's `≤` guard coalesces both, but the code's `<`
guard delivers only the head block, leaves the second queued, and reports
final=false (so the channel also survives where the claim predicts removal). -/
theorem C3_counterexample :
    readCoalesceLe exS3.data = ([exBlockA, [0]], [])
    ∧ (read exU3 "c" exGet3 0).data = [exBlockA]
    ∧ (read exU3 "c" exGet3 0).final = false
    ∧ exS3.upload_complete = true
    ∧ total_len [exBlockA, [0]] = MAX_SIZE_SOFT := by
  have hms : MAX_SIZE_SOFT = 67108864 := by norm_num [MAX_SIZE_SOFT]
  have htot : total_len [exBlockA] = MAX_SIZE_SOFT - 1 := by
    simp only [total_len, exBlockA, List.map_cons, List.map_nil, List.length_replicate,
      List.sum_cons, List.sum_nil, Nat.add_zero]
  have hlen0 : ([0] : Bytes).length = 1 := rfl
  have hguardLe : ([0] : Bytes).length + total_len [exBlockA] ≤ MAX_SIZE_SOFT := by omega
  have hguardLt : ¬ (([0] : Bytes).length + total_len [exBlockA] < MAX_SIZE_SOFT) := by omega
  have h2 : readCoalesce exS3.data = ([exBlockA], [[0]]) := by
    show coalesceLoop [exBlockA] [[0]] = ([exBlockA], [[0]])
    simp only [coalesceLoop]
    rw [if_neg hguardLt]
  have h1 : readCoalesceLe exS3.data = ([exBlockA, [0]], []) := by
    show coalesceLoopLe [exBlockA] [[0]] = ([exBlockA, [0]], [])
    simp only [coalesceLoopLe]
    rw [if_pos hguardLe]
    simp
  have hget3 : getStream exU3.streams "c" = some exS3 := rfl
  have hchk3 : _read_error_check (some exS3) exGet3 = .ok exS3 := rfl
  obtain ⟨-, hdata, hfin, -, -, -⟩ :=
    read_standard_spec exU3 "c" exGet3 0 exS3 (by decide) hget3 hchk3 rfl (by decide)
  refine ⟨h1, ?_, ?_, rfl, ?_⟩
  · rw [hdata, h2]
  · rw [hfin, h2]
    rfl
  · have h5 : total_len [exBlockA, [0]] = total_len [exBlockA] + 1 := by
      simp only [total_len, exBlockA, List.map_cons, List.map_nil, List.length_replicate,
        List.length_cons, List.length_nil, List.sum_cons, List.sum_nil]
      omega
    omega

def exS3w : Stream :=
  { ttl := 300, data := [[1], [2]], upload_complete := true, new := true,
    locked := false, encrypted := false, version := exVer, id_ := "id3", expire := 0 }

def exU3w : UState := { streams := [("c", exS3w)], stats := emptyStats }

theorem C3_witness :
    (read exU3w "c" exGet3 0).status = 200
    ∧ (read exU3w "c" exGet3 0).data ++ (readCoalesce exS3w.data).2 = exS3w.data
    ∧ ((read exU3w "c" exGet3 0).final = true →
        getStream (read exU3w "c" exGet3 0).state.streams "c" = none) := by
  obtain ⟨h1, h2, -, -, -, -, -, -, -, hfin⟩ :=
    C3_standard_consume exU3w "c" exGet3 0 exS3w (by decide) rfl rfl rfl (by decide)
  exact ⟨h1, h2, hfin⟩

/-! ## Claim C4 -/

theorem natRepr_digits (n : Nat) : ∀ b ∈ natRepr n, 48 ≤ b ∧ b ≤ 57 := by
  intro b hb
  unfold natRepr at hb
  split at hb
  · simp only [List.mem_singleton] at hb
    omega
  · simp only [List.mem_map, List.mem_reverse] at hb
    obtain ⟨d, hd, rfl⟩ := hb
    have := Nat.digits_lt_base (by norm_num) hd
    omega

theorem natRepr_ne_nil (n : Nat) : natRepr n ≠ [] := by
  unfold natRepr
  split
  · simp
  · next h =>
    simp [Nat.digits_ne_nil_iff_ne_zero, h]

theorem parseNat_natRepr (n : Nat) : parseNat (natRepr n) = some n := by
  unfold parseNat
  rw [if_pos ⟨natRepr_ne_nil n, natRepr_digits n⟩]
  congr 1
  unfold natRepr
  split
  · next h =>
    subst h
    simp [Nat.ofDigits]
  · rw [List.map_map]
    have hid : ((fun x => x - 48) ∘ fun x => x + 48) = (id : Nat → Nat) :=
      funext fun x => by simp
    rw [hid, List.map_id, List.reverse_reverse, Nat.ofDigits_digits]

theorem not_mem_natRepr_of_lt (x n : Nat) (hx : x < 48) : x ∉ natRepr n := by
  intro h
  have := natRepr_digits n x h
  omega

theorem splitByte_no_sep (sep : Nat) (x : Bytes) (hx : sep ∉ x) :
    splitByte sep x = [x] := by
  induction x with
  | nil => rfl
  | cons b t ih =>
    have hb : b ≠ sep := fun h => hx (by simp [h])
    have ht : sep ∉ t := fun h => hx (List.mem_cons_of_mem _ h)
    simp only [splitByte, ih ht, if_neg hb]

theorem splitByte_append (sep : Nat) (x y : Bytes) (hx : sep ∉ x) :
    splitByte sep (x ++ sep :: y) = x :: splitByte sep y := by
  induction x with
  | nil => simp [splitByte]
  | cons b t ih =>
    have hb : b ≠ sep := fun h => hx (by simp [h])
    have ht : sep ∉ t := fun h => hx (List.mem_cons_of_mem _ h)
    simp only [List.cons_append, splitByte, List.append_eq, ih ht, if_neg hb]

theorem findByte_append (x : Nat) (l1 l2 : Bytes) (h : x ∉ l1) :
    findByte x (l1 ++ x :: l2) = some l1.length := by
  induction l1 with
  | nil => simp [findByte]
  | cons b t ih =>
    have hb : b ≠ x := fun hh => h (by simp [hh])
    have ht : x ∉ t := fun hh => h (List.mem_cons_of_mem _ hh)
    simp [findByte, hb, ih ht]

/-- The length line of `encode`: the four decimal lengths joined by single
spaces. -/
def lenLine (e : EncryptedData) : Bytes :=
  natRepr e.text.length ++ 32 :: (natRepr e.salt.length ++ 32 ::
    (natRepr e.nonce.length ++ 32 :: natRepr e.tag.length))

theorem ten_not_mem_lenLine (e : EncryptedData) : (10 : Nat) ∉ lenLine e := by
  intro h
  simp only [lenLine, List.mem_append, List.mem_cons] at h
  rcases h with h | h | h | h | h | h | h <;>
    first
      | exact not_mem_natRepr_of_lt 10 _ (by norm_num) h
      | simp at h

theorem splitByte_lenLine (e : EncryptedData) :
    splitByte 32 (lenLine e) =
      [natRepr e.text.length, natRepr e.salt.length, natRepr e.nonce.length,
        natRepr e.tag.length] := by
  unfold lenLine
  rw [splitByte_append 32 _ _ (not_mem_natRepr_of_lt 32 _ (by norm_num)),
    splitByte_append 32 _ _ (not_mem_natRepr_of_lt 32 _ (by norm_num)),
    splitByte_append 32 _ _ (not_mem_natRepr_of_lt 32 _ (by norm_num)),
    splitByte_no_sep 32 _ (not_mem_natRepr_of_lt 32 _ (by norm_num))]

theorem parseAll_natRepr (a b c d : Nat) :
    parseAll [natRepr a, natRepr b, natRepr c, natRepr d] = some [a, b, c, d] := by
  simp [parseAll, parseNat_natRepr]

theorem slice_exact (pre mid post : Bytes) :
    slice (pre ++ (mid ++ post)) pre.length mid.length = mid := by
  unfold slice
  rw [List.drop_left, List.take_left]

theorem buildParts_exact (pre a b c d : Bytes) :
    buildParts (pre ++ (a ++ (b ++ (c ++ d)))) pre.length
        [a.length, b.length, c.length, d.length]
      = ([a, b, c, d],
          pre.length + a.length + b.length + c.length + d.length) := by
  have e2 : pre ++ (a ++ (b ++ (c ++ d))) = (pre ++ a) ++ (b ++ (c ++ d)) :=
    (List.append_assoc pre a _).symm
  have e3 : pre ++ (a ++ (b ++ (c ++ d))) = ((pre ++ a) ++ b) ++ (c ++ d) := by
    rw [List.append_assoc, List.append_assoc]
  have e4 : pre ++ (a ++ (b ++ (c ++ d))) = (((pre ++ a) ++ b) ++ c) ++ d := by
    rw [List.append_assoc, List.append_assoc, List.append_assoc]
  have s1 : slice (pre ++ (a ++ (b ++ (c ++ d)))) pre.length a.length = a :=
    slice_exact pre a _
  have s2 : slice (pre ++ (a ++ (b ++ (c ++ d)))) (pre.length + a.length) b.length = b := by
    rw [e2, show pre.length + a.length = (pre ++ a).length by rw [List.length_append]]
    exact slice_exact (pre ++ a) b _
  have s3 : slice (pre ++ (a ++ (b ++ (c ++ d))))
      (pre.length + a.length + b.length) c.length = c := by
    rw [e3, show pre.length + a.length + b.length = ((pre ++ a) ++ b).length by
      rw [List.length_append, List.length_append]]
    exact slice_exact ((pre ++ a) ++ b) c d
  have s4 : slice (pre ++ (a ++ (b ++ (c ++ d))))
      (pre.length + a.length + b.length + c.length) d.length = d := by
    rw [e4, show pre.length + a.length + b.length + c.length
        = (((pre ++ a) ++ b) ++ c).length by
      rw [List.length_append, List.length_append, List.length_append]]
    have h := slice_exact (((pre ++ a) ++ b) ++ c) d []
    rwa [List.append_nil] at h
  simp only [buildParts, s1, s2, s3, s4]

theorem encode_parts (e : EncryptedData) :
    EncryptedData.encode e =
      (lenLine e ++ [10]) ++ (e.text ++ (e.salt ++ (e.nonce ++ e.tag))) := by
  simp [EncryptedData.encode, lenLine, List.append_assoc]

theorem encode_length_pos (e : EncryptedData) : 0 < (EncryptedData.encode e).length := by
  rw [encode_parts]
  simp [List.length_append]

theorem decodeFrame_exact (L t s n g : Bytes) (hL10 : (10 : Nat) ∉ L)
    (hsplit : parseAll (splitByte 32 L) = some [t.length, s.length, n.length, g.length]) :
    decodeFrame ((L ++ [10]) ++ (t ++ (s ++ (n ++ g)))) 0
      = some (⟨t, s, n, g⟩, ((L ++ [10]) ++ (t ++ (s ++ (n ++ g)))).length) := by
  have hR : (L ++ [10]) ++ (t ++ (s ++ (n ++ g)))
      = L ++ 10 :: (t ++ (s ++ (n ++ g))) := by
    simp
  have hfind : findByte 10 (((L ++ [10]) ++ (t ++ (s ++ (n ++ g)))).drop 0)
      = some L.length := by
    rw [List.drop_zero, hR]
    exact findByte_append 10 _ _ hL10
  have hline : slice ((L ++ [10]) ++ (t ++ (s ++ (n ++ g)))) 0 L.length = L := by
    unfold slice
    rw [List.drop_zero, hR]
    exact List.take_left _ _
  have hstart : 0 + L.length + 1 = (L ++ [10]).length := by
    simp
  have hbuild := buildParts_exact (L ++ [10]) t s n g
  have hlen : (L ++ [10]).length + t.length + s.length + n.length + g.length
      = ((L ++ [10]) ++ (t ++ (s ++ (n ++ g)))).length := by
    simp [List.length_append]
    omega
  unfold decodeFrame
  rw [hfind]
  simp only [hline, splitByte_lenLine, hsplit, hstart, hbuild, hlen]

theorem decode_encode (e : EncryptedData) :
    EncryptedData.decode (EncryptedData.encode e) = some [e] := by
  have hframe : decodeFrame (EncryptedData.encode e) 0
      = some (e, (EncryptedData.encode e).length) := by
    obtain ⟨t, s, n, g⟩ := e
    rw [encode_parts]
    exact decodeFrame_exact _ _ _ _ _ (ten_not_mem_lenLine ⟨t, s, n, g⟩)
      (by rw [splitByte_lenLine ⟨t, s, n, g⟩]
          exact parseAll_natRepr _ _ _ _)
  obtain ⟨m, hm⟩ : ∃ m, (EncryptedData.encode e).length = m + 1 :=
    ⟨(EncryptedData.encode e).length - 1, by have := encode_length_pos e; omega⟩
  unfold EncryptedData.decode
  rw [hm]
  simp only [decodeAux]
  rw [if_pos (by rw [hm]; omega), hframe, hm]
  simp only [decodeAux]
  rw [if_neg (by omega)]
  rfl

/-- C4: with the external primitives satisfying their contracts (zstd
decompression inverts compression; AES-GCM `decrypt_and_verify` inverts
`encrypt_and_digest` under the same key and nonce), decrypting the result of
encrypting any bytes `x` with any non-empty password returns exactly `x`;
empty input and a null password pass through unchanged in both directions. -/
theorem C4_crypt_roundtrip (p : CryptoPrims) (x : Bytes) (pw : String)
    (salt nonce : Bytes)
    (hcomp : ∀ b, p.decompress (p.compress b) = b)
    (haes : ∀ key nn pt,
      p.aesDecrypt key nn (p.aesEncrypt key nn pt).1 (p.aesEncrypt key nn pt).2 = some pt)
    (hpw : pw ≠ "") :
    decrypt p (encrypt p salt nonce x (some pw)) (some pw) = some x
    ∧ (∀ password, encrypt p salt nonce [] password = [])
    ∧ (∀ d, encrypt p salt nonce d none = d)
    ∧ (∀ password, decrypt p [] password = some [])
    ∧ (∀ d, decrypt p d none = some d) := by
  have hpwe : pwEmpty (some pw) = false := by simp [pwEmpty, hpw]
  refine ⟨?_, ?_, ?_, ?_, ?_⟩
  · by_cases hx : x = []
    · subst hx
      simp [encrypt, decrypt, hpwe]
    · have henc : encrypt p salt nonce x (some pw) =
          EncryptedData.encode
            ⟨(p.aesEncrypt (p.scrypt pw salt) nonce (p.compress x)).1, salt, nonce,
              (p.aesEncrypt (p.scrypt pw salt) nonce (p.compress x)).2⟩ := by
        simp [encrypt, hpwe, hx]
      have hne : EncryptedData.encode
          (⟨(p.aesEncrypt (p.scrypt pw salt) nonce (p.compress x)).1, salt, nonce,
            (p.aesEncrypt (p.scrypt pw salt) nonce (p.compress x)).2⟩ : EncryptedData)
          ≠ [] := by
        intro h
        have hp := encode_length_pos
          (⟨(p.aesEncrypt (p.scrypt pw salt) nonce (p.compress x)).1, salt, nonce,
            (p.aesEncrypt (p.scrypt pw salt) nonce (p.compress x)).2⟩ : EncryptedData)
        rw [h] at hp
        simp at hp
      rw [henc]
      simp only [decrypt, hpwe, Bool.false_or]
      rw [if_neg (by simpa using hne)]
      rw [decode_encode]
      simp only [decryptFrames, Option.getD_some]
      rw [haes (p.scrypt pw salt) nonce (p.compress x)]
      simp only [List.map_cons, List.map_nil, hcomp]
  · intro password
    simp [encrypt]
  · intro d
    simp [encrypt, pwEmpty]
  · intro password
    simp [decrypt]
  · intro d
    simp [decrypt, pwEmpty]

/-- Trivial primitives satisfying the round-trip contracts, for the witness. -/
def idPrims : CryptoPrims where
  compress := id
  decompress := id
  scrypt := fun _ _ => []
  aesEncrypt := fun _ _ pt => (pt, [])
  aesDecrypt := fun _ _ ct _ => some ct

theorem C4_witness :
    decrypt idPrims (encrypt idPrims [1, 2] [3] [9, 8] (some "pw")) (some "pw") = some [9, 8]
    ∧ encrypt idPrims [1, 2] [3] [] (some "pw") = [] := by
  obtain ⟨h1, h2, -, -, -⟩ := C4_crypt_roundtrip idPrims [9, 8] "pw" [1, 2] [3]
    (fun b => rfl) (fun k nn pt => rfl) (by decide)
  exact ⟨h1, h2 (some "pw")⟩

/-! ## Claim C1 -/

/-- A POST past the guards replaces the channel's stream with a fresh one. -/
theorem write_post_eq (u : UState) (c : String) (args : UploadRequestParams)
    (add : Bytes) (now : Int) (fid : String)
    (hver : illegalVersion args.version = false)
    (hsize : ¬ MAX_SIZE_HARD < add.length)
    (hsid : args.stream_id = none) :
    write u c .POST args add now fid =
      (201, { u with streams := (setStream u.streams c
        (Stream.init (if add = [] then [] else [add]) (args.ttl.getD DEFAULT_TTL)
          args.encrypted args.version args.final fid now)) }) := by
  simp [write, hver, hsize, hsid]

/-- `_put_error_check` never fails with status 202. -/
theorem put_error_check_ne_202 (s? : Option Stream) (args : UploadRequestParams)
    (ec : Nat) (h : _put_error_check s? args = .error ec) : ec ≠ 202 := by
  cases s? with
  | none =>
    simp only [_put_error_check] at h
    injection h with h0
    subst h0
    decide
  | some s0 =>
    simp only [_put_error_check] at h
    split at h
    · injection h with h0; subst h0; decide
    · split at h
      · injection h with h0; subst h0; decide
      · split at h
        · injection h with h0; subst h0; decide
        · split at h
          · injection h with h0; subst h0; decide
          · exact Except.noConfusion h

/-- A PUT answered 202 took the accept path. -/
theorem write_put_202 (u : UState) (c : String) (args : UploadRequestParams)
    (add : Bytes) (now : Int) (fid : String)
    (h : (write u c .PUT args add now fid).1 = 202) :
    ∃ s, _put_error_check (getStream u.streams c) args = .ok s
      ∧ (write u c .PUT args add now fid).2
          = { u with streams := setStream u.streams c (putStream s args add now) } := by
  by_cases h1 : illegalVersion args.version = true
  · simp [write, h1, UploadEC.illegal_version] at h
  · by_cases h2 : MAX_SIZE_HARD < add.length
    · simp [write, h1, h2, UploadEC.too_big] at h
    · by_cases h3 : args.stream_id = none
      · simp [write, h1, h2, h3, UploadEC.stream_id] at h
      · cases hchk : _put_error_check (getStream u.streams c) args with
        | error ec =>
          rw [show (write u c .PUT args add now fid).1 = ec by
            simp [write, h1, h2, h3, hchk]] at h
          exact absurd h (put_error_check_ne_202 _ _ ec hchk)
        | ok s =>
          refine ⟨s, rfl, ?_⟩
          simp [write, h1, h2, h3, hchk]

theorem lastFinal_cons (b : Bool) (p : PutCall) (t : List PutCall) :
    lastFinal b (p :: t) = lastFinal p.args.final t := by
  unfold lastFinal
  rw [List.map_cons, List.getLastD_cons]

theorem flatten_filter_ne_nil (l : List Bytes) :
    (l.filter (fun b => b ≠ [])).flatten = l.flatten := by
  induction l with
  | nil => rfl
  | cons h t ih =>
    rw [List.filter_cons]
    by_cases hh : h = []
    · rw [if_neg (by simp [hh]), ih, hh]
      simp
    · rw [if_pos (by simp [hh]), List.flatten_cons, List.flatten_cons, ih]

/-- Running a sequence of PUTs that are all answered 202 appends exactly the
non-empty request bodies, in order, leaving identity, version and encryption
unchanged, with `upload_complete` tracking the last call's `final` flag. -/
theorem runPuts_exact (c : String) (now : Int) :
    ∀ (ps : List PutCall) (u : UState) (s : Stream),
    getStream u.streams c = some s →
    (runPuts c now u ps).1.all (fun st => st = 202) = true →
    ∃ s', getStream (runPuts c now u ps).2.streams c = some s'
      ∧ s'.data = s.data ++ ((ps.map PutCall.body).filter (fun b => b ≠ []))
      ∧ s'.id_ = s.id_ ∧ s'.version = s.version ∧ s'.encrypted = s.encrypted
      ∧ s'.upload_complete = lastFinal s.upload_complete ps := by
  intro ps
  induction ps with
  | nil =>
    intro u s hget hall
    exact ⟨s, hget, by simp, rfl, rfl, rfl, by simp [lastFinal]⟩
  | cons p t ih =>
    intro u s hget hall
    have hall' : ((write u c .PUT p.args p.body now "").1 = 202)
        ∧ (runPuts c now (write u c .PUT p.args p.body now "").2 t).1.all
            (fun st => st = 202) = true := by
      simpa [runPuts, List.all_cons] using hall
    obtain ⟨sM, hchk, hst2⟩ := write_put_202 u c p.args p.body now "" hall'.1
    have hsM : sM = s := by
      have := (put_error_check_ok _ _ _ hchk).1
      rw [hget] at this
      injection this with h0
      exact h0.symm
    subst hsM
    have hget2 : getStream (write u c .PUT p.args p.body now "").2.streams c
        = some (putStream sM p.args p.body now) := by
      rw [hst2]
      exact getStream_setStream_self _ _ _
    obtain ⟨s', hget', hdata', hid', hver', henc', huc'⟩ :=
      ih (write u c .PUT p.args p.body now "").2 (putStream sM p.args p.body now)
        hget2 hall'.2
    obtain ⟨hpd, hpu, hpi, hpv, hpe, -, -, -, -⟩ := putStream_spec sM p.args p.body now
    refine ⟨s', hget', ?_, ?_, ?_, ?_, ?_⟩
    · rw [hdata', hpd, List.map_cons, List.filter_cons]
      by_cases hb : p.body = []
      · simp [hb]
      · simp [hb, List.append_assoc]
    · rw [hid', hpi]
    · rw [hver', hpv]
    · rw [henc', hpe]
    · rw [huc', hpu, lastFinal_cons]

/-- The single consuming reader's GET loop retrieves exactly the queued
blocks, in order, and ends with the channel removed. -/
theorem drain_exact (c : String) (args : DownloadRequestParams) (now : Int) :
    ∀ (fuel : Nat) (u : UState) (s : Stream),
    getStream u.streams c = some s →
    s.upload_complete = true →
    args.delete = true →
    Version.beq args.version WEB_VERSION = false →
    illegalVersion args.version = false →
    args.stream_id = some s.id_ →
    (Version.beq args.version s.version || args.override) = true →
    s.data.length < fuel →
    (drainLoop c args now fuel u).1 = s.data
    ∧ getStream (drainLoop c args now fuel u).2.streams c = none := by
  intro fuel
  induction fuel with
  | zero =>
    intro u s hget hcomp hdel hweb hver hsid hvo hfuel
    omega
  | succ f ih =>
    intro u s hget hcomp hdel hweb hver hsid hvo hfuel
    have hchk : _read_error_check (some s) args = .ok s :=
      read_error_check_passes s args hdel hweb hsid hvo (Or.inl hcomp)
    obtain ⟨hst, hdata, hfin, hfin_t, hfin_f, hstats⟩ :=
      read_standard_spec u c args now s hver hget hchk hdel hweb
    by_cases hf : (read u c args now).final = true
    · have hstep : drainLoop c args now (f + 1) u
          = ((read u c args now).data, (read u c args now).state) := by
        simp only [drainLoop]
        rw [if_pos hst, if_pos hf]
      have hrest : (readCoalesce s.data).2 = [] := by
        rw [hfin] at hf
        have := (Bool.and_eq_true _ _).mp hf
        exact List.isEmpty_iff.mp this.2
      constructor
      · rw [hstep, hdata]
        have happ := readCoalesce_append s.data
        rw [hrest, List.append_nil] at happ
        exact happ
      · rw [hstep]
        exact hfin_t hf
    · have hf' : (read u c args now).final = false := by
        cases hf2 : (read u c args now).final
        · rfl
        · exact absurd hf2 hf
      have hstep : drainLoop c args now (f + 1) u
          = ((read u c args now).data ++ (drainLoop c args now f (read u c args now).state).1,
             (drainLoop c args now f (read u c args now).state).2) := by
        simp only [drainLoop]
        rw [if_pos hst, if_neg hf]
      have hsome := hfin_f hf'
      have hne : s.data ≠ [] := by
        intro hnil
        rw [hfin, hnil] at hf'
        simp [readCoalesce, hcomp] at hf'
      -- facts about the updated stream
      have hs2d : ({ (if s.new then Stream.touch now { s with new := false } else s) with
          data := (readCoalesce s.data).2 } : Stream).data = (readCoalesce s.data).2 := by
        cases hn : s.new <;> simp [hn, Stream.touch]
      have hs2u : ({ (if s.new then Stream.touch now { s with new := false } else s) with
          data := (readCoalesce s.data).2 } : Stream).upload_complete = true := by
        cases hn : s.new <;> simp [hn, Stream.touch, hcomp]
      have hs2i : ({ (if s.new then Stream.touch now { s with new := false } else s) with
          data := (readCoalesce s.data).2 } : Stream).id_ = s.id_ := by
        cases hn : s.new <;> simp [hn, Stream.touch]
      have hs2v : ({ (if s.new then Stream.touch now { s with new := false } else s) with
          data := (readCoalesce s.data).2 } : Stream).version = s.version := by
        cases hn : s.new <;> simp [hn, Stream.touch]
      have hlen2 : ({ (if s.new then Stream.touch now { s with new := false } else s) with
          data := (readCoalesce s.data).2 } : Stream).data.length < f := by
        rw [hs2d]
        have happ := readCoalesce_append s.data
        have hrne : (readCoalesce s.data).1 ≠ [] := by
          cases hq : s.data with
          | nil => exact absurd hq hne
          | cons hh tt => exact readCoalesce_ne_nil hh tt
        have hsum : (readCoalesce s.data).1.length + (readCoalesce s.data).2.length
            = s.data.length := by
          rw [← List.length_append, happ]
        have hr1 : 1 ≤ (readCoalesce s.data).1.length := by
          cases hq : (readCoalesce s.data).1 with
          | nil => exact absurd hq hrne
          | cons _ _ => simp
        omega
      obtain ⟨ihl, ihr⟩ := ih (read u c args now).state
        ({ (if s.new then Stream.touch now { s with new := false } else s) with
            data := (readCoalesce s.data).2 }) hsome hs2u hdel hweb hver
        (by rw [hs2i]; exact hsid) (by rw [hs2v]; exact hvo) hlen2
      constructor
      · rw [hstep]
        show (read u c args now).data
            ++ (drainLoop c args now f (read u c args now).state).1 = s.data
        rw [hdata, ihl, hs2d]
        exact readCoalesce_append s.data
      · rw [hstep]
        exact ihr

/-- C1: for a session consisting of one POST (guards passed) followed by PUTs
that are all answered 202 and whose last upload call set `final`, with no
interleaved replacing POST, DELETE or prune, a single consuming reader using
the POST's stream id retrieves, over its successive GETs, exactly the
non-empty accepted bodies as blocks, in per-channel FIFO order, each exactly
once; the concatenation of the returned bytes equals the concatenation of all
accepted bodies; and the channel is gone once the final GET was served. -/
theorem C1_fifo_delivery (u0 : UState) (c : String) (postArgs : UploadRequestParams)
    (b0 : Bytes) (ps : List PutCall) (rargs : DownloadRequestParams)
    (now now2 now3 : Int) (fid : String) (fuel : Nat)
    (hpver : illegalVersion postArgs.version = false)
    (hpsize : ¬ MAX_SIZE_HARD < b0.length)
    (hpsid : postArgs.stream_id = none)
    (hall : (runPuts c now2 (write u0 c .POST postArgs b0 now fid).2 ps).1.all
        (fun st => st = 202) = true)
    (hfinal : lastFinal postArgs.final ps = true)
    (hdel : rargs.delete = true)
    (hweb : Version.beq rargs.version WEB_VERSION = false)
    (hrver : illegalVersion rargs.version = false)
    (hrsid : rargs.stream_id = some fid)
    (hvo : (Version.beq rargs.version postArgs.version || rargs.override) = true)
    (hfuel : ps.length + 1 < fuel) :
    (drainLoop c rargs now3 fuel
        (runPuts c now2 (write u0 c .POST postArgs b0 now fid).2 ps).2).1
      = (b0 :: ps.map PutCall.body).filter (fun b => b ≠ [])
    ∧ (drainLoop c rargs now3 fuel
        (runPuts c now2 (write u0 c .POST postArgs b0 now fid).2 ps).2).1.flatten
      = (b0 :: ps.map PutCall.body).flatten
    ∧ getStream (drainLoop c rargs now3 fuel
        (runPuts c now2 (write u0 c .POST postArgs b0 now fid).2 ps).2).2.streams c
      = none := by
  have hpost := write_post_eq u0 c postArgs b0 now fid hpver hpsize hpsid
  have hget0 : getStream (write u0 c .POST postArgs b0 now fid).2.streams c
      = some (Stream.init (if b0 = [] then [] else [b0]) (postArgs.ttl.getD DEFAULT_TTL)
          postArgs.encrypted postArgs.version postArgs.final fid now) := by
    rw [hpost]
    exact getStream_setStream_self _ _ _
  obtain ⟨s', hget', hdata', hid', hver', henc', huc'⟩ :=
    runPuts_exact c now2 ps _ _ hget0 hall
  have huc : s'.upload_complete = true := by
    rw [huc']
    exact hfinal
  have hdataeq : s'.data = (b0 :: ps.map PutCall.body).filter (fun b => b ≠ []) := by
    rw [hdata', List.filter_cons]
    show (if b0 = [] then [] else [b0]) ++ _ = _
    by_cases hb : b0 = []
    · simp [hb]
    · simp [hb]
  have hlen : s'.data.length < fuel := by
    rw [hdataeq]
    have h1 := List.length_filter_le (fun b => (b ≠ [] : Bool)) (b0 :: ps.map PutCall.body)
    have h2 : (b0 :: ps.map PutCall.body).length = ps.length + 1 := by
      simp
    omega
  have hsid' : rargs.stream_id = some s'.id_ := by
    rw [hid']
    exact hrsid
  have hvo' : (Version.beq rargs.version s'.version || rargs.override) = true := by
    rw [hver']
    exact hvo
  obtain ⟨hdrain, hnone⟩ :=
    drain_exact c rargs now3 fuel _ s' hget' huc hdel hweb hrver hsid' hvo' hlen
  refine ⟨?_, ?_, hnone⟩
  · rw [hdrain, hdataeq]
  · rw [hdrain, hdataeq, flatten_filter_ne_nil]

def exPost1 : UploadRequestParams :=
  { version := exVer, encrypted := false, final := false, override := false,
    stream_id := none, ttl := none }

def exPutArgs1 : UploadRequestParams :=
  { version := exVer, encrypted := false, final := true, override := false,
    stream_id := some "F", ttl := none }

def exPut1 : PutCall := { args := exPutArgs1, body := [3, 4] }

def exRead1 : DownloadRequestParams :=
  { version := exVer, delete := true, override := false, stream_id := some "F" }

def exU1 : UState := { streams := [], stats := emptyStats }

theorem C1_witness :
    (drainLoop "c" exRead1 90 5
        (runPuts "c" 20 (write exU1 "c" .POST exPost1 [1, 2] 10 "F").2 [exPut1]).2).1
      = [[1, 2], [3, 4]]
    ∧ (drainLoop "c" exRead1 90 5
        (runPuts "c" 20 (write exU1 "c" .POST exPost1 [1, 2] 10 "F").2 [exPut1]).2).1.flatten
      = [1, 2, 3, 4]
    ∧ getStream (drainLoop "c" exRead1 90 5
        (runPuts "c" 20 (write exU1 "c" .POST exPost1 [1, 2] 10 "F").2 [exPut1]).2).2.streams "c"
      = none := by
  obtain ⟨h1, h2, h3⟩ := C1_fifo_delivery exU1 "c" exPost1 [1, 2] [exPut1] exRead1
    10 20 90 "F" 5 (by decide) (by decide) rfl rfl rfl rfl (by decide)
    (by decide) rfl (by decide) (by decide)
  refine ⟨?_, ?_, h3⟩
  · rw [h1]
    rfl
  · rw [h2]
    rfl

end RPipe
